import Mathlib

/- Verification development for the btrfs_health repository.

   The Python sources (src/btrfs_health.py, src/read_status.py) are shallowly
   embedded below.  Python dictionaries are modelled as association lists with
   insertion-order semantics (`dictInsert` replaces in place, appends new keys
   at the end, exactly like CPython dicts).  Python exceptions are modelled by
   an `Except`/`Res` error type; the unbounded `while True` loops of the scrub
   orchestrator take a fuel argument, with a distinguished `timeout` outcome
   standing for "still looping".  External state (the status-file directory,
   the `btrfs fi show` output, /proc/mounts, and subprocess outcomes) is an
   explicit environment. -/

set_option maxRecDepth 4000

/-- Association list standing for a Python dict (insertion ordered). -/
abbrev Dict (α β : Type) := List (α × β)

/-- Python dict assignment: replace the value in place if the key exists,
    otherwise append the new binding at the end. -/
def dictInsert {α β : Type} [DecidableEq α] (k : α) (v : β) : Dict α β → Dict α β
  | [] => [(k, v)]
  | (k', v') :: rest => if k' = k then (k, v) :: rest else (k', v') :: dictInsert k v rest

/-- Python dict lookup (first binding of the key; keys built by `dictInsert`
    are unique, so this is the dict's current value). -/
def dictLookup {α β : Type} [DecidableEq α] (k : α) : Dict α β → Option β
  | [] => none
  | (k', v) :: rest => if k' = k then some v else dictLookup k rest

/-- Digit run to a natural number, as Python's int() does for digit strings. -/
def digitsToNat (ds : List Char) : Nat :=
  ds.foldl (fun a c => a * 10 + (c.toNat - '0'.toNat)) 0

/-- Python's int(str): surrounding whitespace stripped, optional sign, then a
    nonempty digit run; anything else raises ValueError (here: none). -/
def pyInt (s : String) : Option Int :=
  match (s.toList.dropWhile Char.isWhitespace).reverse.dropWhile Char.isWhitespace |>.reverse with
  | [] => none
  | '-' :: ds => if ds ≠ [] ∧ ds.all Char.isDigit then some (-(digitsToNat ds : Int)) else none
  | '+' :: ds => if ds ≠ [] ∧ ds.all Char.isDigit then some ((digitsToNat ds : Int)) else none
  | ds => if ds.all Char.isDigit then some ((digitsToNat ds : Int)) else none

/-- Python str.rstrip(): drop trailing whitespace. -/
def pyRstrip (s : String) : String :=
  String.mk (s.toList.reverse.dropWhile Char.isWhitespace).reverse

/-- Python str.split(sep) for a one-character separator (keeps empty pieces). -/
def pySplitChar (sep : Char) : List Char → List (List Char)
  | [] => [[]]
  | c :: rest =>
    match pySplitChar sep rest with
    | [] => [[]]
    | piece :: pieces => if c = sep then [] :: piece :: pieces else (c :: piece) :: pieces

/-- Python str.partition(sep) for a one-character separator: split at the
    first occurrence; the Bool records whether the separator was found. -/
def pyPartitionCore (sep : Char) : List Char → Option (List Char × List Char)
  | [] => none
  | c :: rest =>
    if c = sep then some ([], rest)
    else
      match pyPartitionCore sep rest with
      | some (a, b) => some (c :: a, b)
      | none => none

def pyPartition (s : String) (sep : Char) : String × Bool × String :=
  match pyPartitionCore sep s.toList with
  | some (a, b) => (String.mk a, true, String.mk b)
  | none => (s, false, "")

/-- Python str.split() with no argument: split on whitespace runs, no empty
    pieces. -/
def pySplitWsCore : List Char → List (List Char)
  | [] => []
  | c :: rest =>
    if c.isWhitespace then pySplitWsCore rest
    else
      match pySplitWsCore rest with
      | [] => [[c]]
      | piece :: pieces =>
        match rest with
        | [] => [[c]]
        | d :: _ => if d.isWhitespace then [c] :: piece :: pieces else (c :: piece) :: pieces

def pySplitWs (s : String) : List String :=
  (pySplitWsCore s.toList).map String.mk

/-- The exception taxonomy of the embedded code.  `parseError` stands for the
    AttributeError raised by calling .group on a failed re.match, `assertError`
    for a failed assert, `keyError`/`valueError`/`indexError` for the
    corresponding Python exceptions, `unmounted` for the RuntimeError raised by
    mounted_filesystem_ids (it names the UUID), `calledProcess` for
    subprocess.CalledProcessError, and `scrubCanceled` for ScrubCanceled. -/
inductive Err where
  | parseError
  | assertError
  | keyError
  | valueError
  | indexError
  | unmounted (uuid : String)
  | calledProcess
  | scrubCanceled
deriving DecidableEq, Repr

/-- A value stored in a scrub-status device record: the parsed fields are
    strings; the derived total_errors field is the only integer. -/
inductive SVal where
  | str (s : String)
  | num (n : Int)
deriving DecidableEq, Repr

abbrev DeviceData := Dict String SVal

/-- uuid -> devid -> field data, as returned by read_scrub_status. -/
abbrev Snapshot := Dict String (Dict String DeviceData)

/-- The character class [-0-9a-f] used for UUIDs by both regexes. -/
def classChar (c : Char) : Bool := c = '-' || c.isDigit || ('a' ≤ c && c ≤ 'f')

/-- Matches n characters of [-0-9a-f] followed by the regex anchor `$`: the
    `[-0-9a-f]\x7b36\x7d$` tail of the status-file regex.  Python's `$`
    matches at the end of the string and also just before a newline that
    ends the string, so a single trailing newline is accepted. -/
def matchClassN : Nat → List Char → Bool
  | 0, rest => rest.isEmpty || rest == ['\n']
  | _ + 1, [] => false
  | n + 1, c :: rest => classChar c && matchClassN n rest

/-- re.match(r"scrub\.status\.[-0-9a-f]\x7b36\x7d$", name): the literal
    prefix, then exactly 36 UUID characters, then `$` — end of name or a
    lone trailing newline (Path.glob("scrub.status.*") also passes names
    containing a newline through to this check). -/
def matchStatusName (name : String) : Bool :=
  ("scrub.status.".toList).isPrefixOf name.toList && matchClassN 36 (name.toList.drop 13)

/-- The eight error-count fields summed into total_errors
    (btrfs_health.py lines 150-151). -/
def errorKeys : List String :=
  ["read_errors", "csum_errors", "verify_errors", "csum_discards", "super_errors",
   "malloc_errors", "uncorrectable_errors", "corrected_errors"]

def svalToInt : SVal → Option Int
  | .str s => pyInt s
  | .num n => some n

/-- total_errors += int(device_data[key]) over the given keys: KeyError if a
    key is missing, ValueError if its value is not an integer literal. -/
def sumErrorKeys : List String → DeviceData → Except Err Int
  | [], _ => .ok 0
  | k :: rest, d =>
    match dictLookup k d with
    | none => .error .keyError
    | some v =>
      match svalToInt v with
      | none => .error .valueError
      | some n =>
        match sumErrorKeys rest d with
        | .error e => .error e
        | .ok m => .ok (n + m)

/-- The key:value items after the uuid:devid header of one status line
    (`for item in items[1:]` in read_scrub_status). -/
def parseItems : List String → DeviceData → Except Err DeviceData
  | [], acc => .ok acc
  | it :: rest, acc =>
    let p := pyPartition it ':'
    if p.2.1 then parseItems rest (dictInsert p.1 (SVal.str p.2.2) acc)
    else .error .assertError

/-- One device line of a status file: rstrip, split on "|", partition the
    first item on ":" into uuid:devid, parse the remaining items, then
    recompute and store total_errors (btrfs_health.py lines 139-153). -/
def parseDeviceLine (line : String) : Except Err (String × String × DeviceData) :=
  match (pySplitChar '|' (pyRstrip line).toList).map String.mk with
  | [] => .error .assertError
  | first :: rest =>
    let p := pyPartition first ':'
    if p.2.1 then
      match parseItems rest [] with
      | .error e => .error e
      | .ok data =>
        match sumErrorKeys errorKeys data with
        | .error e => .error e
        | .ok total => .ok (p.1, p.2.2, dictInsert "total_errors" (SVal.num total) data)
    else .error .assertError

/-- results.setdefault(uuid, \x7b\x7d)[devid] = device_data. -/
def snapInsert (uuid devid : String) (data : DeviceData) (snap : Snapshot) : Snapshot :=
  match dictLookup uuid snap with
  | some devs => dictInsert uuid (dictInsert devid data devs) snap
  | none => snap ++ [(uuid, [(devid, data)])]

def parseStatusLines : List String → Snapshot → Except Err Snapshot
  | [], acc => .ok acc
  | l :: rest, acc =>
    match parseDeviceLine l with
    | .error e => .error e
    | .ok (uuid, devid, data) => parseStatusLines rest (snapInsert uuid devid data acc)

/-- The loop body of read_scrub_status over the directory listing: files whose
    name fails the status-file regex are skipped silently; a matching file has
    its first (header) line discarded and the rest parsed per device. -/
def readStatusFiles : List (String × List String) → Snapshot → Except Err Snapshot
  | [], acc => .ok acc
  | f :: rest, acc =>
    if matchStatusName f.1 then
      match parseStatusLines (f.2.drop 1) acc with
      | .error e => .error e
      | .ok acc' => readStatusFiles rest acc'
    else readStatusFiles rest acc

/-- read_scrub_status, over the files (name, lines) found in /var/lib/btrfs. -/
def read_scrub_status (files : List (String × List String)) : Except Err Snapshot :=
  readStatusFiles files []

/-- Greedy choice point for a regex fragment `(.+)X...`: split l into p ++ q
    with p nonempty and as long as possible such that cond holds of q (the
    backtracking engine tries the longest prefix first). -/
def longestSplit (cond : List Char → Bool) : List Char → Option (List Char × List Char)
  | [] => none
  | c :: rest =>
    match longestSplit cond rest with
    | some (p, q) => some (c :: p, q)
    | none => if cond rest then some ([c], rest) else none

/-- Condition after the label group: the literal "  uuid: " followed by at
    least one [-0-9a-f] character. -/
def labelCond (q : List Char) : Bool :=
  ("  uuid: ".toList).isPrefixOf q &&
    (match q.drop 8 with
     | c :: _ => classChar c
     | [] => false)

/-- re.match(r"Label: (?P<label>.+)  uuid: (?P<uuid>[-0-9a-f]+)", line):
    returns (label, uuid) or none.  The label group is greedy, the uuid group
    is the maximal class run after the separator; nothing anchors the end. -/
def parseLabelLine (s : String) : Option (String × String) :=
  if ("Label: ".toList).isPrefixOf s.toList then
    match longestSplit labelCond (s.toList.drop 7) with
    | some (lab, q) => some (String.mk lab, String.mk ((q.drop 8).takeWhile classChar))
    | none => none
  else none

/-- re.match("\tTotal devices (?P<number_devices>\\d+) FS bytes used
    (?P<bytes_used>.+)", line): returns (number_devices, bytes_used). -/
def parseTotalLine (s : String) : Option (Nat × String) :=
  if ("\tTotal devices ".toList).isPrefixOf s.toList then
    let rest := s.toList.drop 15
    let ds := rest.takeWhile Char.isDigit
    if ds = [] then none
    else if (" FS bytes used ".toList).isPrefixOf (rest.drop ds.length) then
      let bytes := (rest.drop ds.length).drop 15
      if bytes = [] then none
      else some (digitsToNat ds, String.mk bytes)
    else none
  else none

def pathCond (r : List Char) : Bool := (" path ".toList).isPrefixOf r

/-- Condition after the size group: the literal " used ", then a nonempty
    used group admitting a later " path " separator (the trailing `.*` of the
    regex accepts anything after it). -/
def usedCond (q : List Char) : Bool :=
  (" used ".toList).isPrefixOf q && (longestSplit pathCond (q.drop 6)).isSome

/-- re.match("\tdevid\\s* (?P<devid>\\d+) size (?P<size>.+) used (?P<used>.+)
    path (?P<device_path>.*)", line).  Backtracking makes `\s* ` equivalent to
    a nonempty whitespace run whose last character is a plain space followed
    by a digit; the size and used groups are greedy with backtracking, the
    path group takes the rest of the line. -/
def parseDevidLine (s : String) : Option (String × String × String × String) :=
  if ("\tdevid".toList).isPrefixOf s.toList then
    let rest := s.toList.drop 6
    let ws := rest.takeWhile Char.isWhitespace
    if ws = [] then none
    else if ws.getLast? = some ' ' then
      let ds := (rest.drop ws.length).takeWhile Char.isDigit
      if ds = [] then none
      else
        let rest2 := (rest.drop ws.length).drop ds.length
        if (" size ".toList).isPrefixOf rest2 then
          match longestSplit usedCond (rest2.drop 6) with
          | none => none
          | some (size, q) =>
            match longestSplit pathCond (q.drop 6) with
            | none => none
            | some (used, r) =>
              some (String.mk ds, String.mk size, String.mk used, String.mk (r.drop 6))
        else none
    else none
  else none

structure DeviceInfo where
  size : String
  used : String
  path : String
deriving DecidableEq, Repr

structure FsData where
  label : String
  number_devices : Nat
  bytes_used : String
  devices : Dict String DeviceInfo
deriving DecidableEq, Repr

/-- The device-line loop of parse_filesystem: `while line := next(lines)`.
    A blank line ends the block normally (returning the remaining lines);
    exhausting the input raises StopIteration before the block is recorded,
    modelled as `ok none`. -/
def parseDeviceLines : List String → Dict String DeviceInfo →
    Except Err (Option (Dict String DeviceInfo × List String))
  | [], _ => .ok none
  | l :: rest, acc =>
    if l = "" then .ok (some (acc, rest))
    else
      match parseDevidLine l with
      | none => .error .parseError
      | some (devid, size, used, path) =>
        parseDeviceLines rest (dictInsert devid ⟨size, used, path⟩ acc)

/-- parse_filesystem(lines): label/uuid line, totals line, then device lines
    up to a blank line.  `ok none` models StopIteration escaping to the
    caller (end of input), which silently drops any partially parsed block;
    a line that fails its pattern is a fatal error. -/
def parseFilesystemBlock : List String → Except Err (Option ((String × FsData) × List String))
  | [] => .ok none
  | l1 :: rest =>
    match parseLabelLine l1 with
    | none => .error .parseError
    | some (label, uuid) =>
      match rest with
      | [] => .ok none
      | l2 :: rest2 =>
        match parseTotalLine l2 with
        | none => .error .parseError
        | some (nd, bu) =>
          match parseDeviceLines rest2 [] with
          | .error e => .error e
          | .ok none => .ok none
          | .ok (some (devs, rest3)) =>
            .ok (some ((uuid, ⟨label, nd, bu, devs⟩), rest3))

/-- The `while True` driver of get_filesystems; each parsed block is assigned
    into the filesystems dict keyed by UUID.  Each block consumes at least
    three lines, so fuel `lines.length + 1` can never run out. -/
def getFilesystemsAux : Nat → List String → Dict String FsData → Except Err (Dict String FsData)
  | 0, _, acc => .ok acc
  | fuel + 1, lines, acc =>
    match parseFilesystemBlock lines with
    | .error e => .error e
    | .ok none => .ok acc
    | .ok (some ((uuid, data), rest)) => getFilesystemsAux fuel rest (dictInsert uuid data acc)

/-- get_filesystems, over the stdout lines of `btrfs fi show --mounted`. -/
def get_filesystems (lines : List String) : Except Err (Dict String FsData) :=
  getFilesystemsAux (lines.length + 1) lines []

def optionsSplit (s : String) : List String :=
  (pySplitChar ',' s.toList).map String.mk

/-- The root_mounts loop of mounted_filesystem_ids over
    `[line.split()[:4] for line in open("/proc/mounts").readlines()]`:
    keep entries whose fstype is btrfs and whose options contain subvol=/,
    keyed by device (later lines overwrite earlier ones). -/
def rootMountsAux : List (List String) → Dict String String → Except Err (Dict String String)
  | [], acc => .ok acc
  | mount :: rest, acc =>
    match mount.get? 2 with
    | none => .error .indexError
    | some fstype =>
      if fstype = "btrfs" then
        match mount.get? 3 with
        | none => .error .indexError
        | some opts =>
          if "subvol=/" ∈ optionsSplit opts then
            match mount.get? 0, mount.get? 1 with
            | some dev, some mp => rootMountsAux rest (dictInsert dev mp acc)
            | _, _ => .error .indexError
          else rootMountsAux rest acc
      else rootMountsAux rest acc

def rootMounts (mountLines : List String) : Except Err (Dict String String) :=
  rootMountsAux (mountLines.map (fun l => (pySplitWs l).take 4)) []

/-- The triple-building loop of mounted_filesystem_ids: device_path is
    devices["1"]["path"] (a bare KeyError if devid 1 is absent); a missing
    mount for that path raises the RuntimeError naming the UUID. -/
def buildIds : List (String × FsData) → Dict String String →
    List (String × String × String) → Except Err (List (String × String × String))
  | [], _, acc => .ok acc
  | (uuid, data) :: rest, rm, acc =>
    match dictLookup "1" data.devices with
    | none => .error .keyError
    | some dev =>
      match dictLookup dev.path rm with
      | none => .error (.unmounted uuid)
      | some mp => buildIds rest rm (acc ++ [(uuid, dev.path, mp)])

/-- mounted_filesystem_ids, given the already-discovered filesystems and the
    lines of /proc/mounts. -/
def mounted_filesystem_ids (fs : Dict String FsData) (mountLines : List String) :
    Except Err (List (String × String × String)) :=
  match rootMounts mountLines with
  | .error e => .error e
  | .ok rm => buildIds fs rm []

/-- Commands issued and waits performed by the orchestrator, in order. -/
inductive Event where
  | cancelCmd (mp : String)
  | startCmd (mp : String)
  | cancelSleep
  | pollSleep
deriving DecidableEq, Repr

/-- Outcome of a fuelled loop: normal return, a raised exception, or fuel
    exhaustion (the loop is still running; a modelling artifact, not an
    outcome of the Python code). -/
inductive Res (α : Type) where
  | ok (a : α)
  | err (e : Err)
  | timeout
deriving DecidableEq, Repr

/-- The long-lived mutable state: the process-wide scrub.cancel flag, the
    scrub.cancel_scrubs attribute (absent until first assigned: line 183
    assigns this attribute instead of scrub.cancel), and the current time
    tick (advanced by each time.sleep). -/
structure St where
  cancel : Bool
  cancel_scrubs : Option Bool
  tick : Nat
deriving DecidableEq, Repr

/-- The external world: the status-file directory contents at each tick, the
    `btrfs fi show --mounted` stdout lines, the /proc/mounts lines, and the
    outcomes of `btrfs scrub start` (does check=True succeed?) and
    `btrfs scrub cancel` (its return code) per mount point. -/
structure Env where
  files : Nat → List (String × List String)
  listing : List String
  mounts : List String
  startOk : String → Bool
  cancelRet : String → Nat

/-- get_filesystems piped into mounted_filesystem_ids, as both call sites
    (scrub and cancel_scrubs) use it. -/
def mfi (env : Env) : Except Err (List (String × String × String)) :=
  match get_filesystems env.listing with
  | .error e => .error e
  | .ok fs => mounted_filesystem_ids fs env.mounts

def setAdd (x : String) (l : List String) : List String :=
  if x ∈ l then l else l ++ [x]

/-- Inner loop of cancel_scrubs over the devices of one targeted uuid:
    `if device["canceled"] != "1": uncanceled_scrubs.add(uuid)`. -/
def uncanceledDevices (uuid : String) : List (String × DeviceData) → List String →
    Except Err (List String)
  | [], acc => .ok acc
  | (_, device) :: rest, acc =>
    match dictLookup "canceled" device with
    | none => .error .keyError
    | some c =>
      if c ≠ SVal.str "1" then uncanceledDevices uuid rest (setAdd uuid acc)
      else uncanceledDevices uuid rest acc

def uncanceledGo (uuids : List String) : Snapshot → List String → Except Err (List String)
  | [], acc => .ok acc
  | (uuid, devices) :: rest, acc =>
    if uuid ∈ uuids then
      match uncanceledDevices uuid devices acc with
      | .error e => .error e
      | .ok acc' => uncanceledGo uuids rest acc'
    else uncanceledGo uuids rest acc

/-- The uncanceled_scrubs set computed at the top of each cancel_scrubs
    iteration: every targeted uuid with some device not yet canceled. -/
def uncanceledScrubs (uuids : List String) (status : Snapshot) : Except Err (List String) :=
  uncanceledGo uuids status []

/-- Mount points of the uuids selected for cancelling, in the order
    mounted_filesystem_ids yields them. -/
def targetMounts (tris : List (String × String × String)) (sel : List String) : List String :=
  tris.filterMap (fun t => if t.1 ∈ sel then some t.2.2 else none)

/-- The cancel-command loop: run `btrfs scrub cancel mp` and assert that the
    return code is 0 or 2 ("not running" is acceptable). -/
def cancelCmdLoop (env : Env) : List String → Option Err × List Event
  | [] => (none, [])
  | mp :: rest =>
    if env.cancelRet mp = 0 ∨ env.cancelRet mp = 2 then
      let r := cancelCmdLoop env rest
      (r.1, Event.cancelCmd mp :: r.2)
    else (some .assertError, [Event.cancelCmd mp])

/-- cancel_scrubs(uuids): read all statuses; stop as soon as no targeted uuid
    has an uncanceled device (the final status read is returned as the
    result, for specification purposes; Python returns None); otherwise issue
    cancel commands for the affected uuids, sleep one tick, and retry. -/
def cancel_scrubs (env : Env) (uuids : List String) : Nat → St → Res Snapshot × St × List Event
  | 0, st => (.timeout, st, [])
  | fuel + 1, st =>
    match read_scrub_status (env.files st.tick) with
    | .error e => (.err e, st, [])
    | .ok status =>
      match uncanceledScrubs uuids status with
      | .error e => (.err e, st, [])
      | .ok uncanceled =>
        if uncanceled = [] then (.ok status, st, [])
        else
          match mfi env with
          | .error e => (.err e, st, [])
          | .ok tris =>
            match cancelCmdLoop env (targetMounts tris uncanceled) with
            | (some e, evs) => (.err e, st, evs)
            | (none, evs) =>
              let r := cancel_scrubs env uuids fuel { st with tick := st.tick + 1 }
              (r.1, r.2.1, evs ++ Event.cancelSleep :: r.2.2)

/-- The scrub-start loop: `btrfs scrub start mp` for every targeted, mounted
    uuid, with check=True (a failure raises CalledProcessError). -/
def startLoop (env : Env) (uuids : List String) :
    List (String × String × String) → Option Err × List Event
  | [] => (none, [])
  | (u, _, mp) :: rest =>
    if u ∈ uuids then
      if env.startOk mp then
        let r := startLoop env uuids rest
        (r.1, Event.startCmd mp :: r.2)
      else (some .calledProcess, [Event.startCmd mp])
    else startLoop env uuids rest

/-- Inner loop of the poll check over the devices of one targeted uuid:
    a device with finished != "1" marks the scrub unfinished, and
    `assert device["canceled"] != "1"` aborts on an unexpectedly canceled
    device (btrfs_health.py lines 189-192). -/
def pollCheckDevices : List (String × DeviceData) → Bool → Except Err Bool
  | [], u => .ok u
  | (_, device) :: rest, u =>
    match dictLookup "finished" device with
    | none => .error .keyError
    | some fin =>
      match dictLookup "canceled" device with
      | none => .error .keyError
      | some c =>
        if c = SVal.str "1" then .error .assertError
        else pollCheckDevices rest (if fin ≠ SVal.str "1" then true else u)

def pollCheckGo (uuids : List String) : Snapshot → Bool → Except Err Bool
  | [], u => .ok u
  | (uuid, devices) :: rest, u =>
    if uuid ∈ uuids then
      match pollCheckDevices devices u with
      | .error e => .error e
      | .ok u' => pollCheckGo uuids rest u'
    else pollCheckGo uuids rest u

/-- The unfinished_scrub computation of one poll cycle (lines 186-192):
    ok true = some targeted device unfinished, ok false = all finished. -/
def pollCheck (uuids : List String) (results : Snapshot) : Except Err Bool :=
  pollCheckGo uuids results false

/-- What one poll iteration decides. -/
inductive PollRes where
  | ret (snap : Snapshot)
  | cont
  | fail (e : Err)
deriving DecidableEq, Repr

/-- One iteration of the poll loop: time.sleep(5), then the scrub.cancel
    check (which assigns scrub.cancel_scrubs := False — not scrub.cancel —
    and raises ScrubCanceled), then read all statuses and run the
    finished/canceled checks; return the full snapshot when nothing targeted
    is unfinished. -/
def pollStep (env : Env) (uuids : List String) (st : St) : PollRes × St :=
  let st1 : St := { st with tick := st.tick + 1 }
  if st1.cancel then
    (.fail .scrubCanceled, { st1 with cancel_scrubs := some false })
  else
    match read_scrub_status (env.files st1.tick) with
    | .error e => (.fail e, st1)
    | .ok results =>
      match pollCheck uuids results with
      | .error e => (.fail e, st1)
      | .ok unfinished =>
        if unfinished then (.cont, st1) else (.ret results, st1)

def pollLoop (env : Env) (uuids : List String) : Nat → St → Res Snapshot × St × List Event
  | 0, st => (.timeout, st, [])
  | fuel + 1, st =>
    match pollStep env uuids st with
    | (.ret snap, st1) => (.ok snap, st1, [Event.pollSleep])
    | (.fail e, st1) => (.err e, st1, [Event.pollSleep])
    | (.cont, st1) =>
      let r := pollLoop env uuids fuel st1
      (r.1, r.2.1, Event.pollSleep :: r.2.2)

/-- The try-block of scrub (lines 176-195): resolve mount points, start a
    scrub for every targeted uuid, then poll.  Any error here is unwound by
    the caller. -/
def scrubTryBody (env : Env) (uuids : List String) (fuel : Nat) (st : St) :
    Res Snapshot × St × List Event :=
  match mfi env with
  | .error e => (.err e, st, [])
  | .ok tris =>
    match startLoop env uuids tris with
    | (some e, evs) => (.err e, st, evs)
    | (none, evs) =>
      let r := pollLoop env uuids fuel st
      (r.1, r.2.1, evs ++ r.2.2)

/-- scrub(uuids): cancel_scrubs first (outside the try block), then the try
    body; `except BaseException: cancel_scrubs(uuids); raise` re-runs the
    cancel loop on any exception (ScrubCanceled included) before re-raising
    it.  If the unwinding cancel_scrubs itself raises, that exception
    propagates instead, as in Python.  fuel1/fuel2/fuel3 bound the first
    cancel loop, the poll loop, and the unwinding cancel loop. -/
def scrub (env : Env) (uuids : List String) (fuel1 fuel2 fuel3 : Nat) (st : St) :
    Res Snapshot × St × List Event :=
  match cancel_scrubs env uuids fuel1 st with
  | (.timeout, st1, evs1) => (.timeout, st1, evs1)
  | (.err e, st1, evs1) => (.err e, st1, evs1)
  | (.ok _, st1, evs1) =>
    match scrubTryBody env uuids fuel2 st1 with
    | (.ok snap, st2, evs2) => (.ok snap, st2, evs1 ++ evs2)
    | (.timeout, st2, evs2) => (.timeout, st2, evs1 ++ evs2)
    | (.err e, st2, evs2) =>
      match cancel_scrubs env uuids fuel3 st2 with
      | (.ok _, st3, evs3) => (.err e, st3, evs1 ++ evs2 ++ evs3)
      | (.err e2, st3, evs3) => (.err e2, st3, evs1 ++ evs2 ++ evs3)
      | (.timeout, st3, evs3) => (.timeout, st3, evs1 ++ evs2 ++ evs3)

/-- A concrete mounted filesystem UUID used by the concrete scenarios. -/
def uuidA : String := "01234567-89ab-cdef-0123-456789abcdef"

/-- Another UUID, never targeted by the concrete scrub calls. -/
def uuidB : String := "abcdefab-0000-1111-2222-333344445555"

def listingA : List String :=
  ["Label: data  uuid: 01234567-89ab-cdef-0123-456789abcdef",
   "\tTotal devices 1 FS bytes used 1.23GiB",
   "\tdevid 1 size 10.00GiB used 1.00GiB path /dev/sda",
   ""]

def mountsA : List String := ["/dev/sda /mnt btrfs rw,subvol=/ 0 0"]

/-- World with an empty status directory at every tick. -/
def envA : Env :=
  { files := fun _ => []
    listing := listingA
    mounts := mountsA
    startOk := fun _ => true
    cancelRet := fun _ => 0 }

/-- One parsed status line for uuidB, device 1: finished, not canceled,
    three total errors. -/
def lineB : String :=
  "abcdefab-0000-1111-2222-333344445555:1|finished:1|canceled:0|read_errors:1|csum_errors:0|verify_errors:0|csum_discards:0|super_errors:0|malloc_errors:0|uncorrectable_errors:0|corrected_errors:2"

/-- World whose status directory always holds one record for the untargeted
    uuidB. -/
def envB : Env :=
  { envA with files := fun _ => [("scrub.status." ++ uuidB, ["header", lineB])] }

/-- A status line for the targeted uuidA whose device reports canceled. -/
def lineC : String :=
  "01234567-89ab-cdef-0123-456789abcdef:1|finished:0|canceled:1|read_errors:0|csum_errors:0|verify_errors:0|csum_discards:0|super_errors:0|malloc_errors:0|uncorrectable_errors:0|corrected_errors:0"

/-- World whose status directory always reports uuidA's device as canceled. -/
def envC : Env :=
  { envA with files := fun _ => [("scrub.status." ++ uuidA, ["header", lineC])] }

/-- The integer value of an error field of a parsed record, if present. -/
def errFieldVal (d : DeviceData) (k : String) : Option Int :=
  match dictLookup k d with
  | some v => svalToInt v
  | none => none

/-- Modelled from the spec: the canonical status-file name
    `scrub.status.<uuid>` with a 36-character UUID drawn from [-0-9a-f] and
    nothing after it.  Stated independently of the regex so that the
    filename filter can be compared against it. -/
def canonicalStatusName (name : String) : Prop :=
  ∃ s : List Char, name.toList = "scrub.status.".toList ++ s ∧
    s.length = 36 ∧ ∀ c ∈ s, classChar c = true

/-- Modelled from the spec, amended: the canonical status-file name followed
    by nothing or by a single trailing newline — the names whose files the
    code actually parses, since re.match's `$` also matches just before a
    newline that ends the name. -/
def canonicalStatusNameNl (name : String) : Prop :=
  ∃ core tl, name.toList = "scrub.status.".toList ++ (core ++ tl) ∧
    core.length = 36 ∧ (∀ c ∈ core, classChar c = true) ∧ (tl = [] ∨ tl = ['\n'])

/-- Modelled from the spec: a mount-table line eligible as a root mount —
    whitespace-separated fields whose third is the btrfs filesystem type and
    whose fourth, split on commas, contains the root-subvolume marker; dev
    and mp are its first two fields. -/
def isRootMountLine (line dev mp : String) : Prop :=
  ((pySplitWs line).take 4).get? 0 = some dev ∧
  ((pySplitWs line).take 4).get? 1 = some mp ∧
  ((pySplitWs line).take 4).get? 2 = some "btrfs" ∧
  ∃ opts, ((pySplitWs line).take 4).get? 3 = some opts ∧ "subvol=/" ∈ optionsSplit opts

/-- One block of a volume listing, given by its raw lines: a label/uuid
    line, a totals line, and the device lines. -/
structure RawBlock where
  labelLine : String
  totalLine : String
  devidLines : List String
deriving DecidableEq, Repr

def RawBlock.lines (b : RawBlock) : List String :=
  b.labelLine :: b.totalLine :: b.devidLines

/-- Well-formedness of a block: each of its lines matches the pattern the
    parser expects of it, and no device line is blank. -/
def RawBlock.wf (b : RawBlock) : Prop :=
  (parseLabelLine b.labelLine).isSome = true ∧
  (parseTotalLine b.totalLine).isSome = true ∧
  ∀ l ∈ b.devidLines, l ≠ "" ∧ (parseDevidLine l).isSome = true

def RawBlock.uuid (b : RawBlock) : String :=
  ((parseLabelLine b.labelLine).getD ("", "")).2

/-- One step of the device-dict accumulation a parsed device line causes. -/
def devStep (acc : Dict String DeviceInfo) (l : String) : Dict String DeviceInfo :=
  match parseDevidLine l with
  | some r => dictInsert r.1 ⟨r.2.1, r.2.2.1, r.2.2.2⟩ acc
  | none => acc

/-- The volume a well-formed block denotes: keyed by its uuid, with the
    devices dict built from its device lines in order. -/
def RawBlock.entry (b : RawBlock) : String × FsData :=
  (((parseLabelLine b.labelLine).getD ("", "")).2,
   { label := ((parseLabelLine b.labelLine).getD ("", "")).1
     number_devices := ((parseTotalLine b.totalLine).getD (0, "")).1
     bytes_used := ((parseTotalLine b.totalLine).getD (0, "")).2
     devices := b.devidLines.foldl devStep [] })

/-- A status line carrying an upstream total_errors field (999) that
    disagrees with the sum (15) of the eight error fields. -/
def lineW : String :=
  "01234567-89ab-cdef-0123-456789abcdef:1|finished:1|canceled:0|read_errors:1|csum_errors:2|verify_errors:3|csum_discards:4|super_errors:0|malloc_errors:0|uncorrectable_errors:0|corrected_errors:5|total_errors:999"

/-- Concrete directory contents with one canonical status file and one
    temp-suffixed variant. -/
def filesW : List (String × List String) :=
  [("scrub.status." ++ uuidA, ["header", lineC]),
   ("scrub.status." ++ uuidA ++ "_tmp", ["garbage that would not parse"]),
   ("other.file", [])]

/-- A concrete well-formed listing block with two devices. -/
def blockW : RawBlock :=
  { labelLine := "Label: data  uuid: 01234567-89ab-cdef-0123-456789abcdef"
    totalLine := "\tTotal devices 2 FS bytes used 1.23GiB"
    devidLines := ["\tdevid 1 size 10.00GiB used 1.00GiB path /dev/sda",
                   "\tdevid 2 size 5.00GiB used 0.50GiB path /dev/sdb"] }

/-- A second concrete well-formed block with a distinct uuid. -/
def blockW2 : RawBlock :=
  { labelLine := "Label: backup  uuid: abcdefab-0000-1111-2222-333344445555"
    totalLine := "\tTotal devices 1 FS bytes used 9.00GiB"
    devidLines := ["\tdevid 1 size 20.00GiB used 9.00GiB path /dev/sdc"] }

/-- The filesystems dict used by the identity-resolution witness. -/
def fsW : Dict String FsData :=
  [(uuidA,
    { label := "data", number_devices := 1, bytes_used := "1.23GiB",
      devices := [("1", { size := "10.00GiB", used := "1.00GiB", path := "/dev/sda" })] })]

/-- The parsed device record of lineC. -/
def devC : DeviceData :=
  [("finished", SVal.str "0"), ("canceled", SVal.str "1"),
   ("read_errors", SVal.str "0"), ("csum_errors", SVal.str "0"),
   ("verify_errors", SVal.str "0"), ("csum_discards", SVal.str "0"),
   ("super_errors", SVal.str "0"), ("malloc_errors", SVal.str "0"),
   ("uncorrectable_errors", SVal.str "0"), ("corrected_errors", SVal.str "0"),
   ("total_errors", SVal.num 0)]

/-- The parsed snapshot of envC's status directory. -/
def snapC : Snapshot := [(uuidA, [("1", devC)])]

/-- The parsed device record of lineB. -/
def devB : DeviceData :=
  [("finished", SVal.str "1"), ("canceled", SVal.str "0"),
   ("read_errors", SVal.str "1"), ("csum_errors", SVal.str "0"),
   ("verify_errors", SVal.str "0"), ("csum_discards", SVal.str "0"),
   ("super_errors", SVal.str "0"), ("malloc_errors", SVal.str "0"),
   ("uncorrectable_errors", SVal.str "0"), ("corrected_errors", SVal.str "2"),
   ("total_errors", SVal.num 3)]

/-- The parsed snapshot of envB's status directory: a record for the
    untargeted uuidB only. -/
def snapB : Snapshot := [(uuidB, [("1", devB)])]

theorem dictLookup_dictInsert_self {β : Type} (k : String) (v : β) (d : Dict String β) :
    dictLookup k (dictInsert k v d) = some v := by
  induction d with
  | nil => simp [dictInsert, dictLookup]
  | cons p rest ih =>
    obtain ⟨k', v'⟩ := p
    by_cases h : k' = k
    · simp [dictInsert, h, dictLookup]
    · simp [dictInsert, h, dictLookup, ih]

theorem dictLookup_dictInsert_ne {β : Type} (k k0 : String) (v : β) (d : Dict String β)
    (h : k ≠ k0) : dictLookup k (dictInsert k0 v d) = dictLookup k d := by
  induction d with
  | nil => simp [dictInsert, dictLookup, Ne.symm h]
  | cons p rest ih =>
    obtain ⟨k', v'⟩ := p
    simp only [dictInsert]
    by_cases h' : k' = k0
    · subst h'
      simp [dictLookup, Ne.symm h]
    · simp only [if_neg h', dictLookup]
      by_cases h'' : k' = k
      · simp [h'']
      · simp [h'', ih]

theorem foldrSum_congr (l : List String) (f g : String → Int)
    (h : ∀ k ∈ l, f k = g k) :
    l.foldr (fun k acc => f k + acc) 0 = l.foldr (fun k acc => g k + acc) 0 := by
  induction l with
  | nil => rfl
  | cons k rest ih =>
    simp only [List.foldr_cons]
    rw [h k (List.mem_cons_self k rest), ih (fun k' hk' => h k' (List.mem_cons_of_mem _ hk'))]

theorem sumErrorKeys_eq_foldr (keys : List String) (d : DeviceData) (t : Int)
    (h : sumErrorKeys keys d = .ok t) :
    (∀ k ∈ keys, ∃ n, errFieldVal d k = some n) ∧
    t = keys.foldr (fun k acc => (errFieldVal d k).getD 0 + acc) 0 := by
  induction keys generalizing t with
  | nil =>
    simp only [sumErrorKeys] at h
    injection h with h
    simp [h.symm]
  | cons k rest ih =>
    simp only [sumErrorKeys] at h
    split at h
    · exact absurd h (by simp)
    · rename_i v hl
      split at h
      · exact absurd h (by simp)
      · rename_i n hs
        split at h
        · exact absurd h (by simp)
        · rename_i m hr
          injection h with h
          obtain ⟨h1, h2⟩ := ih m hr
          have hf : errFieldVal d k = some n := by
            simp [errFieldVal, hl, hs]
          refine ⟨?_, ?_⟩
          · intro k' hk'
            rcases List.mem_cons.mp hk' with rfl | hk'
            · exact ⟨n, hf⟩
            · exact h1 k' hk'
          · simp only [List.foldr_cons, hf, Option.getD_some]
            omega

theorem parseDeviceLine_shape (line u d : String) (data : DeviceData)
    (h : parseDeviceLine line = .ok (u, d, data)) :
    ∃ data0 total, sumErrorKeys errorKeys data0 = .ok total ∧
      data = dictInsert "total_errors" (SVal.num total) data0 := by
  simp only [parseDeviceLine] at h
  split at h
  · exact absurd h (by simp)
  · split at h
    · split at h
      · exact absurd h (by simp)
      · rename_i data0 hitems
        split at h
        · exact absurd h (by simp)
        · rename_i total hsum
          injection h with h
          injection h with h1 h
          injection h with h2 h3
          exact ⟨data0, total, hsum, h3.symm⟩
    · exact absurd h (by simp)

/-- C4: for every status record parsed by read_scrub_status, the stored
    total_errors field equals the sum of exactly the eight error fields as
    parsed from that record (each of which is present with an integer
    value), never an upstream total field. -/
theorem c4_total_errors_recomputed (line u d : String) (data : DeviceData)
    (h : parseDeviceLine line = .ok (u, d, data)) :
    (∀ k ∈ errorKeys, ∃ n, errFieldVal data k = some n) ∧
    dictLookup "total_errors" data =
      some (SVal.num (errorKeys.foldr (fun k acc => (errFieldVal data k).getD 0 + acc) 0)) := by
  obtain ⟨data0, total, hsum, hdata⟩ := parseDeviceLine_shape line u d data h
  subst hdata
  obtain ⟨h1, h2⟩ := sumErrorKeys_eq_foldr errorKeys data0 total hsum
  have hne : ∀ k ∈ errorKeys, k ≠ "total_errors" := by decide
  have hfield : ∀ k ∈ errorKeys,
      errFieldVal (dictInsert "total_errors" (SVal.num total) data0) k = errFieldVal data0 k := by
    intro k hk
    simp only [errFieldVal]
    rw [dictLookup_dictInsert_ne k "total_errors" _ data0 (hne k hk)]
  constructor
  · intro k hk
    rw [hfield k hk]
    exact h1 k hk
  · rw [dictLookup_dictInsert_self]
    have heq : List.foldr
        (fun k acc => (errFieldVal (dictInsert "total_errors" (SVal.num total) data0) k).getD 0 + acc)
        0 errorKeys =
        List.foldr (fun k acc => (errFieldVal data0 k).getD 0 + acc) 0 errorKeys :=
      foldrSum_congr errorKeys _ _ (fun k hk => by rw [hfield k hk])
    rw [heq, ← h2]

/-- Witness for C4 at a concrete line that carries a decoy upstream
    total_errors field disagreeing with the recomputed sum. -/
theorem c4_witness :
    ∃ u d data, parseDeviceLine lineW = .ok (u, d, data) ∧
      ((∀ k ∈ errorKeys, ∃ n, errFieldVal data k = some n) ∧
       dictLookup "total_errors" data =
         some (SVal.num (errorKeys.foldr (fun k acc => (errFieldVal data k).getD 0 + acc) 0))) :=
  ⟨_, _, _, rfl, c4_total_errors_recomputed lineW _ _ _ rfl⟩

theorem isPrefixOf_iff_append {l t : List Char} :
    l.isPrefixOf t = true ↔ ∃ r, t = l ++ r := by
  induction l generalizing t with
  | nil => simp [List.isPrefixOf]
  | cons c rest ih =>
    cases t with
    | nil => simp [List.isPrefixOf]
    | cons c' t' =>
      simp only [List.isPrefixOf, Bool.and_eq_true, beq_iff_eq, ih, List.cons_append,
        List.cons.injEq]
      constructor
      · rintro ⟨rfl, r, rfl⟩
        exact ⟨r, rfl, rfl⟩
      · rintro ⟨r, rfl, rfl⟩
        exact ⟨rfl, r, rfl⟩

theorem matchClassN_iff (n : Nat) (l : List Char) :
    matchClassN n l = true ↔
      ∃ core tl, l = core ++ tl ∧ core.length = n ∧ (∀ c ∈ core, classChar c = true) ∧
        (tl = [] ∨ tl = ['\n']) := by
  induction n generalizing l with
  | zero =>
    constructor
    · intro h
      simp only [matchClassN, Bool.or_eq_true] at h
      rcases h with h | h
      · have hl : l = [] := by simpa using h
        subst hl
        exact ⟨[], [], rfl, rfl, by simp, Or.inl rfl⟩
      · have hl : l = ['\n'] := by simpa using h
        subst hl
        exact ⟨[], ['\n'], rfl, rfl, by simp, Or.inr rfl⟩
    · rintro ⟨core, tl, rfl, hlen, hall, htl⟩
      have hc : core = [] := List.length_eq_zero.mp hlen
      subst hc
      rcases htl with rfl | rfl
      · simp [matchClassN]
      · simp [matchClassN]
  | succ n ih =>
    cases l with
    | nil =>
      constructor
      · intro h
        exact absurd h (by simp [matchClassN])
      · rintro ⟨core, tl, heq, hlen, hall, htl⟩
        cases core with
        | nil => simp at hlen
        | cons c0 core' => simp at heq
    | cons c rest =>
      simp only [matchClassN, Bool.and_eq_true, ih]
      constructor
      · rintro ⟨hc, core, tl, rfl, hlen, hall, htl⟩
        refine ⟨c :: core, tl, by simp, by simp [hlen], ?_, htl⟩
        intro c' hc'
        rcases List.mem_cons.mp hc' with rfl | hc'
        · exact hc
        · exact hall c' hc'
      · rintro ⟨core, tl, heq, hlen, hall, htl⟩
        cases core with
        | nil => simp at hlen
        | cons c0 core' =>
          simp only [List.cons_append, List.cons.injEq] at heq
          obtain ⟨h1, heq2⟩ := heq
          refine ⟨by rw [h1]; exact hall c0 (List.mem_cons_self _ _), core', tl, heq2, ?_, ?_, htl⟩
          · simpa using hlen
          · intro c' hc'
            exact hall c' (List.mem_cons_of_mem _ hc')

theorem matchStatusName_iff_nl (name : String) :
    matchStatusName name = true ↔ canonicalStatusNameNl name := by
  simp only [matchStatusName, canonicalStatusNameNl, Bool.and_eq_true, isPrefixOf_iff_append,
    matchClassN_iff]
  have h13 : ("scrub.status.".toList).length = 13 := by decide
  constructor
  · rintro ⟨⟨r, hr⟩, core, tl, hsplit, hlen, hall, htl⟩
    have hdrop : name.toList.drop 13 = r := by rw [hr, ← h13, List.drop_left]
    exact ⟨core, tl, by rw [hr, ← hdrop, hsplit], hlen, hall, htl⟩
  · rintro ⟨core, tl, hs, hlen, hall, htl⟩
    have hdrop : name.toList.drop 13 = core ++ tl := by rw [hs, ← h13, List.drop_left]
    exact ⟨⟨core ++ tl, hs⟩, core, tl, hdrop, hlen, hall, htl⟩

theorem readStatusFiles_filter (files : List (String × List String)) (acc : Snapshot) :
    readStatusFiles files acc =
      readStatusFiles (files.filter (fun f => matchStatusName f.1)) acc := by
  induction files generalizing acc with
  | nil => rfl
  | cons f rest ih =>
    by_cases hm : matchStatusName f.1 = true
    · have hf : List.filter (fun f => matchStatusName f.1) (f :: rest)
          = f :: List.filter (fun f => matchStatusName f.1) rest := by
        simp [List.filter_cons, hm]
      rw [hf]
      simp only [readStatusFiles, hm, if_true]
      cases hp : parseStatusLines (f.2.drop 1) acc with
      | error e => rfl
      | ok acc' => exact ih acc'
    · have hf : List.filter (fun f => matchStatusName f.1) (f :: rest)
          = List.filter (fun f => matchStatusName f.1) rest := by
        simp [List.filter_cons, hm]
      rw [hf]
      simp only [readStatusFiles, hm, if_false]
      exact ih acc

theorem readStatusFiles_header_irrelevant (pre post : List (String × List String))
    (name h h' : String) (rest : List String) (acc : Snapshot) :
    readStatusFiles (pre ++ (name, h :: rest) :: post) acc =
      readStatusFiles (pre ++ (name, h' :: rest) :: post) acc := by
  induction pre generalizing acc with
  | nil => rfl
  | cons f pre ih =>
    simp only [List.cons_append, readStatusFiles]
    by_cases hm : matchStatusName f.1 = true
    · simp only [hm, if_true]
      cases hp : parseStatusLines (f.2.drop 1) acc with
      | error e => rfl
      | ok acc' => exact ih acc'
    · simp only [hm, if_false]
      exact ih acc

/-- C8 as stated is false on the code: re.match's $ also matches just before
    a newline that ends the string (and the glob passes such names through),
    so a file named scrub.status.<36 uuid chars> followed by a newline — a
    name with something after the 36 characters, not matching the claim's
    exact pattern — is parsed by read_scrub_status rather than silently
    skipped. -/
theorem c8_counterexample :
    matchStatusName ("scrub.status." ++ uuidA ++ "\n") = true ∧
    ¬ canonicalStatusName ("scrub.status." ++ uuidA ++ "\n") ∧
    read_scrub_status [("scrub.status." ++ uuidA ++ "\n", ["header", lineC])] = .ok snapC := by
  refine ⟨rfl, ?_, rfl⟩
  rintro ⟨s, hs, hlen, hall⟩
  have h50 : ("scrub.status." ++ uuidA ++ "\n").toList.length = 50 := by decide
  rw [hs] at h50
  simp only [List.length_append] at h50
  have h13 : ("scrub.status.".toList).length = 13 := by decide
  omega

/-- C8 (amended): read_scrub_status parses exactly the files whose name
    matches scrub.status.<36 chars of [-0-9a-f]> followed by nothing or by a
    single trailing newline — every other name is skipped silently, so the
    result over any directory listing equals the result over just the files
    so named; the regex filter coincides with that amended pattern; and in
    every parsed file the first line is a discarded header (its content
    cannot affect the result). -/
theorem c8_amended_filename_filter_and_header :
    (∀ files : List (String × List String),
       read_scrub_status files = read_scrub_status (files.filter (fun f => matchStatusName f.1))) ∧
    (∀ name : String, matchStatusName name = true ↔ canonicalStatusNameNl name) ∧
    (∀ (pre post : List (String × List String)) (name h h' : String) (rest : List String),
       read_scrub_status (pre ++ (name, h :: rest) :: post) =
         read_scrub_status (pre ++ (name, h' :: rest) :: post)) :=
  ⟨fun files => readStatusFiles_filter files [],
   matchStatusName_iff_nl,
   fun pre post name h h' rest => readStatusFiles_header_irrelevant pre post name h h' rest []⟩

/-- Witness for the amended C8 on a concrete directory listing holding one
    canonical status file, one temp-suffixed variant, and one unrelated
    file. -/
theorem c8_amended_witness :
    read_scrub_status filesW = read_scrub_status (filesW.filter (fun f => matchStatusName f.1)) ∧
      (matchStatusName ("scrub.status." ++ uuidA) = true ↔
        canonicalStatusNameNl ("scrub.status." ++ uuidA)) :=
  ⟨c8_amended_filename_filter_and_header.1 filesW, c8_amended_filename_filter_and_header.2.1 _⟩

theorem pollCheckDevices_ok_no_canceled (devs : List (String × DeviceData)) (u b : Bool)
    (h : pollCheckDevices devs u = .ok b) :
    ∀ q ∈ devs, dictLookup "canceled" q.2 ≠ some (SVal.str "1") := by
  induction devs generalizing u with
  | nil => intro q hq; exact absurd hq (List.not_mem_nil q)
  | cons p rest ih =>
    obtain ⟨devid, device⟩ := p
    simp only [pollCheckDevices] at h
    split at h
    · exact absurd h (by simp)
    · rename_i fin hfin
      split at h
      · exact absurd h (by simp)
      · rename_i c hcan
        split at h
        · exact absurd h (by simp)
        · rename_i hne
          intro q hq
          rcases List.mem_cons.mp hq with rfl | hq
          · simp only []
            rw [hcan]
            intro he
            injection he with he
            exact hne (by rw [he])
          · exact ih _ h q hq

theorem pollCheckGo_ok_no_canceled (uuids : List String) (l : Snapshot) (u b : Bool)
    (h : pollCheckGo uuids l u = .ok b) :
    ∀ p ∈ l, p.1 ∈ uuids → ∀ q ∈ p.2, dictLookup "canceled" q.2 ≠ some (SVal.str "1") := by
  induction l generalizing u with
  | nil => intro p hp; exact absurd hp (List.not_mem_nil p)
  | cons entry rest ih =>
    obtain ⟨uuid, devices⟩ := entry
    simp only [pollCheckGo] at h
    by_cases hu : uuid ∈ uuids
    · rw [if_pos hu] at h
      intro p hp hpu
      rcases List.mem_cons.mp hp with rfl | hp
      · cases hd : pollCheckDevices devices u with
        | error e => rw [hd] at h; exact absurd h (by simp)
        | ok u' => exact pollCheckDevices_ok_no_canceled devices u u' hd
      · cases hd : pollCheckDevices devices u with
        | error e => rw [hd] at h; exact absurd h (by simp)
        | ok u' =>
          rw [hd] at h
          exact ih u' h p hp hpu
    · rw [if_neg hu] at h
      intro p hp hpu
      rcases List.mem_cons.mp hp with rfl | hp
      · exact absurd hpu hu
      · exact ih u h p hp hpu

/-- C6: during polling with no cancellation requested, a status record of a
    targeted UUID reporting canceled = "1" makes the poll loop raise an error
    at that tick instead of continuing to poll or returning a snapshot. -/
theorem c6_poll_aborts_on_canceled (env : Env) (uuids : List String) (st : St) (fuel : Nat)
    (results : Snapshot) (uuid : String) (devs : Dict String DeviceData)
    (devid : String) (dev : DeviceData)
    (hc : st.cancel = false)
    (hr : read_scrub_status (env.files (st.tick + 1)) = .ok results)
    (hmem : (uuid, devs) ∈ results) (hu : uuid ∈ uuids) (hdev : (devid, dev) ∈ devs)
    (hcan : dictLookup "canceled" dev = some (SVal.str "1")) :
    ∃ e st' evs, pollLoop env uuids (fuel + 1) st = (.err e, st', evs) := by
  cases hpcv : pollCheck uuids results with
  | ok b =>
    exact absurd hcan
      (pollCheckGo_ok_no_canceled uuids results false b hpcv (uuid, devs) hmem hu (devid, dev) hdev)
  | error e =>
    have hstep : pollStep env uuids st = (.fail e, { st with tick := st.tick + 1 }) := by
      simp only [pollStep, hc]
      rw [hr]
      simp [hpcv, hc]
    refine ⟨e, { st with tick := st.tick + 1 }, [Event.pollSleep], ?_⟩
    simp only [pollLoop, hstep]

/-- Witness for C6: a concrete store whose record for the targeted uuidA
    reports canceled = "1" makes the first poll tick fail. -/
theorem c6_witness :
    ∃ e st' evs, pollLoop envC [uuidA] 1 ⟨false, none, 0⟩ = (.err e, st', evs) :=
  c6_poll_aborts_on_canceled envC [uuidA] ⟨false, none, 0⟩ 0 snapC uuidA [("1", devC)] "1" devC
    rfl rfl (by simp [snapC]) (by simp) (by simp) rfl

theorem pollCheckGo_untargeted (uuids : List String) (l : Snapshot) (u : Bool)
    (h : ∀ p ∈ l, p.1 ∉ uuids) : pollCheckGo uuids l u = .ok u := by
  induction l with
  | nil => rfl
  | cons p rest ih =>
    obtain ⟨uuid, devices⟩ := p
    have hp : uuid ∉ uuids := h (uuid, devices) (List.mem_cons_self _ _)
    simp only [pollCheckGo, if_neg hp]
    exact ih (fun q hq => h q (List.mem_cons_of_mem _ hq))

/-- C2 (amended): a targeted UUID with no record in the status-store snapshot
    contributes nothing to the poll cycle's finished check — it reads as
    vacuously finished, so a poll cycle whose snapshot contains no targeted
    record at all transitions to Finished and returns that snapshot even
    though every targeted UUID is absent from it. -/
theorem c2_amended_absent_reads_finished (env : Env) (uuids : List String) (st : St)
    (results : Snapshot)
    (hc : st.cancel = false)
    (hr : read_scrub_status (env.files (st.tick + 1)) = .ok results)
    (habs : ∀ p ∈ results, p.1 ∉ uuids) :
    pollStep env uuids st = (.ret results, { st with tick := st.tick + 1 }) := by
  have hpc : pollCheck uuids results = .ok false := pollCheckGo_untargeted uuids results false habs
  simp only [pollStep, hc]
  rw [hr]
  simp [hpc, hc]

/-- Witness for the amended C2 at the empty snapshot. -/
theorem c2_amended_witness :
    pollStep envA [uuidA] ⟨false, none, 0⟩ = (.ret [], ⟨false, none, 1⟩) :=
  c2_amended_absent_reads_finished envA [uuidA] ⟨false, none, 0⟩ [] rfl rfl
    (fun p hp => absurd hp (List.not_mem_nil p))

/-- C2 as stated is false on the code: with uuidA targeted, mounted, and an
    empty status store, a scrub call targeting uuidA transitions to Finished
    on its first poll cycle and returns a snapshot from which uuidA is
    absent. -/
theorem c2_counterexample :
    scrub envA [uuidA] 1 1 1 ⟨false, none, 0⟩ =
      (.ok [], ⟨false, none, 1⟩, [Event.startCmd "/mnt", Event.pollSleep]) ∧
    dictLookup uuidA ([] : Snapshot) = none := ⟨rfl, rfl⟩

theorem dictLookup_mem {β : Type} (k : String) (v : β) (d : Dict String β)
    (h : dictLookup k d = some v) : (k, v) ∈ d := by
  induction d with
  | nil => simp [dictLookup] at h
  | cons p rest ih =>
    obtain ⟨k', v'⟩ := p
    simp only [dictLookup] at h
    by_cases hk : k' = k
    · rw [if_pos hk] at h
      injection h with h
      subst hk h
      exact List.mem_cons_self _ _
    · rw [if_neg hk] at h
      exact List.mem_cons_of_mem _ (ih h)

theorem mem_dictInsert {β : Type} (a k : String) (b v : β) (d : Dict String β)
    (h : (a, b) ∈ dictInsert k v d) : (a = k ∧ b = v) ∨ (a, b) ∈ d := by
  induction d with
  | nil =>
    simp only [dictInsert] at h
    rcases List.mem_singleton.mp h with h
    exact Or.inl (by injection h with h1 h2; exact ⟨h1, h2⟩)
  | cons p rest ih =>
    obtain ⟨k', v'⟩ := p
    simp only [dictInsert] at h
    by_cases hk : k' = k
    · rw [if_pos hk] at h
      rcases List.mem_cons.mp h with h | h
      · exact Or.inl (by injection h with h1 h2; exact ⟨h1, h2⟩)
      · exact Or.inr (List.mem_cons_of_mem _ h)
    · rw [if_neg hk] at h
      rcases List.mem_cons.mp h with h | h
      · exact Or.inr (by rw [h]; exact List.mem_cons_self _ _)
      · rcases ih h with h | h
        · exact Or.inl h
        · exact Or.inr (List.mem_cons_of_mem _ h)

theorem rootMountsAux_sound (ms : List (List String)) (acc rm : Dict String String)
    (h : rootMountsAux ms acc = .ok rm) :
    ∀ p ∈ rm, p ∈ acc ∨ ∃ m ∈ ms, m.get? 0 = some p.1 ∧ m.get? 1 = some p.2 ∧
      m.get? 2 = some "btrfs" ∧ ∃ opts, m.get? 3 = some opts ∧ "subvol=/" ∈ optionsSplit opts := by
  induction ms generalizing acc with
  | nil =>
    simp only [rootMountsAux] at h
    injection h with h
    subst h
    intro p hp
    exact Or.inl hp
  | cons mount rest ih =>
    simp only [rootMountsAux] at h
    split at h
    · exact absurd h (by simp)
    · rename_i fstype hf2
      split at h
      · rename_i hbt
        split at h
        · exact absurd h (by simp)
        · rename_i opts hf3
          split at h
          · rename_i hsv
            split at h
            · rename_i dev mp hf0 hf1
              intro p hp
              rcases ih _ h p hp with hpacc | ⟨m, hm, hrest⟩
              · rcases mem_dictInsert p.1 dev p.2 mp acc (by
                  obtain ⟨a, b⟩ := p; exact hpacc) with ⟨h1, h2⟩ | hpacc'
                · refine Or.inr ⟨mount, List.mem_cons_self _ _, ?_, ?_, ?_, opts, hf3, hsv⟩
                  · rw [h1]; exact hf0
                  · rw [h2]; exact hf1
                  · rw [hbt] at hf2; exact hf2
                · exact Or.inl hpacc'
              · exact Or.inr ⟨m, List.mem_cons_of_mem _ hm, hrest⟩
            · exact absurd h (by simp)
          · rename_i hsv
            intro p hp
            rcases ih _ h p hp with hpacc | ⟨m, hm, hrest⟩
            · exact Or.inl hpacc
            · exact Or.inr ⟨m, List.mem_cons_of_mem _ hm, hrest⟩
      · rename_i hbt
        intro p hp
        rcases ih _ h p hp with hpacc | ⟨m, hm, hrest⟩
        · exact Or.inl hpacc
        · exact Or.inr ⟨m, List.mem_cons_of_mem _ hm, hrest⟩

theorem rootMounts_sound (mountLines : List String) (rm : Dict String String)
    (h : rootMounts mountLines = .ok rm) :
    ∀ dev mp, dictLookup dev rm = some mp → ∃ line ∈ mountLines, isRootMountLine line dev mp := by
  intro dev mp hl
  have hmem := dictLookup_mem dev mp rm hl
  rcases rootMountsAux_sound _ [] rm h (dev, mp) hmem with hacc | ⟨m, hm, h0, h1, h2, opts, h3, hsv⟩
  · exact absurd hacc (List.not_mem_nil _)
  · obtain ⟨line, hline, rfl⟩ := List.mem_map.mp hm
    exact ⟨line, hline, h0, h1, h2, opts, h3, hsv⟩

theorem buildIds_uuids (fs : List (String × FsData)) (rm : Dict String String)
    (acc tris : List (String × String × String))
    (h : buildIds fs rm acc = .ok tris) :
    tris.map (fun t => t.1) = acc.map (fun t => t.1) ++ fs.map Prod.fst := by
  induction fs generalizing acc with
  | nil =>
    simp only [buildIds] at h
    injection h with h
    subst h
    simp
  | cons p rest ih =>
    obtain ⟨uuid, data⟩ := p
    simp only [buildIds] at h
    split at h
    · exact absurd h (by simp)
    · rename_i dev hdev
      split at h
      · exact absurd h (by simp)
      · rename_i mp hmp
        have := ih _ h
        rw [this]
        simp

theorem buildIds_mem (fs : List (String × FsData)) (rm : Dict String String)
    (acc tris : List (String × String × String))
    (h : buildIds fs rm acc = .ok tris) :
    ∀ t ∈ tris, t ∈ acc ∨ ∃ p ∈ fs, ∃ d, p.1 = t.1 ∧ dictLookup "1" p.2.devices = some d ∧
      d.path = t.2.1 ∧ dictLookup d.path rm = some t.2.2 := by
  induction fs generalizing acc with
  | nil =>
    simp only [buildIds] at h
    injection h with h
    subst h
    intro t ht
    exact Or.inl ht
  | cons p rest ih =>
    obtain ⟨uuid, data⟩ := p
    simp only [buildIds] at h
    split at h
    · exact absurd h (by simp)
    · rename_i dev hdev
      split at h
      · exact absurd h (by simp)
      · rename_i mp hmp
        intro t ht
        rcases ih _ h t ht with hacc | ⟨q, hq, d, hfacts⟩
        · rcases List.mem_append.mp hacc with hacc | hsing
          · exact Or.inl hacc
          · rcases List.mem_singleton.mp hsing with rfl
            exact Or.inr ⟨(uuid, data), List.mem_cons_self _ _, dev, rfl, hdev, rfl, hmp⟩
        · exact Or.inr ⟨q, List.mem_cons_of_mem _ hq, d, hfacts⟩

theorem buildIds_unmounted (fs : List (String × FsData)) (rm : Dict String String)
    (acc : List (String × String × String))
    (hdev : ∀ p ∈ fs, ∃ d, dictLookup "1" p.2.devices = some d)
    (hfail : ∃ p ∈ fs, ∃ d, dictLookup "1" p.2.devices = some d ∧ dictLookup d.path rm = none) :
    ∃ u, buildIds fs rm acc = .error (Err.unmounted u) ∧
      ∃ p ∈ fs, p.1 = u ∧ ∃ d, dictLookup "1" p.2.devices = some d ∧
        dictLookup d.path rm = none := by
  induction fs generalizing acc with
  | nil =>
    obtain ⟨p, hp, _⟩ := hfail
    exact absurd hp (List.not_mem_nil p)
  | cons q rest ih =>
    obtain ⟨uuid, data⟩ := q
    obtain ⟨dev, hdev1⟩ := hdev (uuid, data) (List.mem_cons_self _ _)
    cases hmp : dictLookup dev.path rm with
    | none =>
      refine ⟨uuid, ?_, (uuid, data), List.mem_cons_self _ _, rfl, dev, hdev1, hmp⟩
      simp only [buildIds, hdev1, hmp]
    | some mp =>
      obtain ⟨p, hp, d, hd, hdfail⟩ := hfail
      rcases List.mem_cons.mp hp with rfl | hp
      · rw [hdev1] at hd
        injection hd with hd
        subst hd
        rw [hmp] at hdfail
        exact absurd hdfail (by simp)
      · obtain ⟨u, hbuild, hwit⟩ :=
          ih (acc ++ [(uuid, dev.path, mp)])
            (fun p hp => hdev p (List.mem_cons_of_mem _ hp)) ⟨p, hp, d, hd, hdfail⟩
        refine ⟨u, ?_, ?_⟩
        · simp only [buildIds, hdev1, hmp]
          exact hbuild
        · obtain ⟨p', hp', hrest⟩ := hwit
          exact ⟨p', List.mem_cons_of_mem _ hp', hrest⟩

/-- C7: under the preconditions that the discovered filesystems have
    pairwise-distinct UUIDs and each records a devid-1 device,
    mounted_filesystem_ids returns exactly one triple per filesystem — the
    triples' UUIDs are the filesystems' UUIDs, without repetition, each
    triple pairs its UUID with the devid-1 device path and a mount point
    drawn from a mount-table line of btrfs type carrying the subvol=/
    option — and if any filesystem's devid-1 path is absent from the
    filtered mount table, the call instead fails with an UnmountedVolumeError
    naming such a filesystem's UUID. -/
theorem c7_identity_resolution (fs : Dict String FsData) (mountLines : List String)
    (hnd : (fs.map Prod.fst).Nodup)
    (hdev : ∀ p ∈ fs, ∃ d, dictLookup "1" p.2.devices = some d) :
    (∀ tris, mounted_filesystem_ids fs mountLines = .ok tris →
       tris.map (fun t => t.1) = fs.map Prod.fst ∧ (tris.map (fun t => t.1)).Nodup ∧
       ∀ t ∈ tris, (∃ p ∈ fs, ∃ d, p.1 = t.1 ∧ dictLookup "1" p.2.devices = some d ∧
           d.path = t.2.1) ∧
         ∃ line ∈ mountLines, isRootMountLine line t.2.1 t.2.2) ∧
    (∀ rm, rootMounts mountLines = .ok rm →
       (∃ p ∈ fs, ∃ d, dictLookup "1" p.2.devices = some d ∧ dictLookup d.path rm = none) →
       ∃ u, mounted_filesystem_ids fs mountLines = .error (Err.unmounted u) ∧
         ∃ p ∈ fs, p.1 = u ∧ ∃ d, dictLookup "1" p.2.devices = some d ∧
           dictLookup d.path rm = none) := by
  constructor
  · intro tris htris
    unfold mounted_filesystem_ids at htris
    split at htris
    · exact absurd htris (by simp)
    · rename_i rm hrm
      have huuids := buildIds_uuids fs rm [] tris htris
      simp only [List.map_nil, List.nil_append] at huuids
      refine ⟨huuids, by rw [huuids]; exact hnd, ?_⟩
      intro t ht
      rcases buildIds_mem fs rm [] tris htris t ht with hacc | ⟨p, hp, d, h1, h2, h3, h4⟩
      · exact absurd hacc (List.not_mem_nil t)
      · refine ⟨⟨p, hp, d, h1, h2, h3⟩, ?_⟩
        rw [← h3]
        exact rootMounts_sound mountLines rm hrm d.path t.2.2 h4
  · intro rm hrm hfail
    obtain ⟨u, hbuild, hwit⟩ := buildIds_unmounted fs rm [] hdev hfail
    refine ⟨u, ?_, hwit⟩
    unfold mounted_filesystem_ids
    rw [hrm]
    exact hbuild

/-- Witness for C7 at a concrete one-filesystem discovery and mount table. -/
theorem c7_witness :
    (∀ tris, mounted_filesystem_ids fsW mountsA = .ok tris →
       tris.map (fun t => t.1) = fsW.map Prod.fst ∧ (tris.map (fun t => t.1)).Nodup ∧
       ∀ t ∈ tris, (∃ p ∈ fsW, ∃ d, p.1 = t.1 ∧ dictLookup "1" p.2.devices = some d ∧
           d.path = t.2.1) ∧
         ∃ line ∈ mountsA, isRootMountLine line t.2.1 t.2.2) ∧
    (∀ rm, rootMounts mountsA = .ok rm →
       (∃ p ∈ fsW, ∃ d, dictLookup "1" p.2.devices = some d ∧ dictLookup d.path rm = none) →
       ∃ u, mounted_filesystem_ids fsW mountsA = .error (Err.unmounted u) ∧
         ∃ p ∈ fsW, p.1 = u ∧ ∃ d, dictLookup "1" p.2.devices = some d ∧
           dictLookup d.path rm = none) :=
  c7_identity_resolution fsW mountsA (by simp [fsW])
    (by
      intro p hp
      rcases List.mem_singleton.mp hp with rfl
      exact ⟨_, rfl⟩)

theorem cancel_scrubs_ok_post (env : Env) (uuids : List String) :
    ∀ (fuel : Nat) (st : St) (snap : Snapshot) (st' : St) (evs : List Event),
      cancel_scrubs env uuids fuel st = (.ok snap, st', evs) →
      uncanceledScrubs uuids snap = .ok [] := by
  intro fuel
  induction fuel with
  | zero =>
    intro st snap st' evs h
    simp only [cancel_scrubs] at h
    exact absurd h (by simp)
  | succ fuel ih =>
    intro st snap st' evs h
    simp only [cancel_scrubs] at h
    split at h
    · exact absurd h (by simp)
    · rename_i status hread
      split at h
      · exact absurd h (by simp)
      · rename_i uncanceled hunc
        split at h
        · rename_i hempty
          injection h with ha _
          injection ha with ha
          subst ha
          rw [hunc, hempty]
        · rename_i hne
          split at h
          · exact absurd h (by simp)
          · rename_i tris htris
            split at h
            · exact absurd h (by simp)
            · rename_i evs0 hloop
              injection h with ha _
              exact ih { st with tick := st.tick + 1 } snap
                ((cancel_scrubs env uuids fuel { st with tick := st.tick + 1 }).2.1)
                ((cancel_scrubs env uuids fuel { st with tick := st.tick + 1 }).2.2)
                (by rw [← ha])

theorem cancelCmdLoop_events (env : Env) :
    ∀ (l : List String) (r : Option Err) (evs : List Event), cancelCmdLoop env l = (r, evs) →
      ∀ ev ∈ evs, ∃ mp, ev = Event.cancelCmd mp := by
  intro l
  induction l with
  | nil =>
    intro r evs h
    injection h with _ hb
    rw [← hb]
    intro ev hev
    exact absurd hev (List.not_mem_nil ev)
  | cons mp rest ih =>
    intro r evs h
    simp only [cancelCmdLoop] at h
    split at h
    · injection h with ha hb
      rw [← hb]
      intro ev hev
      rcases List.mem_cons.mp hev with rfl | hev
      · exact ⟨mp, rfl⟩
      · exact ih (cancelCmdLoop env rest).1 (cancelCmdLoop env rest).2 rfl ev hev
    · injection h with ha hb
      rw [← hb]
      intro ev hev
      rcases List.mem_singleton.mp hev with rfl
      exact ⟨mp, rfl⟩

theorem cancel_scrubs_events (env : Env) (uuids : List String) :
    ∀ (fuel : Nat) (st : St) (r : Res Snapshot) (st' : St) (evs : List Event),
      cancel_scrubs env uuids fuel st = (r, st', evs) →
      ∀ ev ∈ evs, (∃ mp, ev = Event.cancelCmd mp) ∨ ev = Event.cancelSleep := by
  intro fuel
  induction fuel with
  | zero =>
    intro st r st' evs h
    simp only [cancel_scrubs] at h
    injection h with _ hb
    injection hb with _ hc
    rw [← hc]
    intro ev hev
    exact absurd hev (List.not_mem_nil ev)
  | succ fuel ih =>
    intro st r st' evs h
    simp only [cancel_scrubs] at h
    split at h
    · injection h with _ hb
      injection hb with _ hc
      rw [← hc]
      intro ev hev
      exact absurd hev (List.not_mem_nil ev)
    · rename_i status hread
      split at h
      · injection h with _ hb
        injection hb with _ hc
        rw [← hc]
        intro ev hev
        exact absurd hev (List.not_mem_nil ev)
      · rename_i uncanceled hunc
        split at h
        · injection h with _ hb
          injection hb with _ hc
          rw [← hc]
          intro ev hev
          exact absurd hev (List.not_mem_nil ev)
        · rename_i hne
          split at h
          · injection h with _ hb
            injection hb with _ hc
            rw [← hc]
            intro ev hev
            exact absurd hev (List.not_mem_nil ev)
          · rename_i tris htris
            split at h
            · rename_i e evs0 hloop
              injection h with _ hb
              injection hb with _ hc
              rw [← hc]
              intro ev hev
              exact Or.inl (cancelCmdLoop_events env _ _ _ hloop ev hev)
            · rename_i evs0 hloop
              injection h with _ hb
              injection hb with _ hc
              rw [← hc]
              intro ev hev
              rcases List.mem_append.mp hev with hev | hev
              · exact Or.inl (cancelCmdLoop_events env _ _ _ hloop ev hev)
              · rcases List.mem_cons.mp hev with rfl | hev
                · exact Or.inr rfl
                · exact ih { st with tick := st.tick + 1 }
                    (cancel_scrubs env uuids fuel { st with tick := st.tick + 1 }).1
                    (cancel_scrubs env uuids fuel { st with tick := st.tick + 1 }).2.1
                    (cancel_scrubs env uuids fuel { st with tick := st.tick + 1 }).2.2
                    rfl ev hev

theorem pollStep_ret_read (env : Env) (uuids : List String) (st : St) (snap : Snapshot) (st1 : St)
    (h : pollStep env uuids st = (.ret snap, st1)) :
    read_scrub_status (env.files (st.tick + 1)) = .ok snap := by
  simp only [pollStep] at h
  split at h
  · exact absurd h (by simp)
  · split at h
    · exact absurd h (by simp)
    · rename_i results hread
      split at h
      · exact absurd h (by simp)
      · rename_i unfinished hpc
        split at h
        · exact absurd h (by simp)
        · injection h with ha _
          injection ha with ha
          subst ha
          exact hread

theorem pollLoop_ok_snapshot (env : Env) (uuids : List String) :
    ∀ (fuel : Nat) (st : St) (snap : Snapshot) (st' : St) (evs : List Event),
      pollLoop env uuids fuel st = (.ok snap, st', evs) →
      ∃ t, read_scrub_status (env.files t) = .ok snap := by
  intro fuel
  induction fuel with
  | zero =>
    intro st snap st' evs h
    simp only [pollLoop] at h
    exact absurd h (by simp)
  | succ fuel ih =>
    intro st snap st' evs h
    simp only [pollLoop] at h
    split at h
    · rename_i snap2 st1 hstep
      injection h with ha _
      injection ha with ha
      subst ha
      exact ⟨st.tick + 1, pollStep_ret_read env uuids st _ st1 hstep⟩
    · rename_i e st1 hstep
      exact absurd h (by simp)
    · rename_i st1 hstep
      injection h with ha _
      exact ih st1 snap (pollLoop env uuids fuel st1).2.1 (pollLoop env uuids fuel st1).2.2
        (by rw [← ha])

theorem pollLoop_events (env : Env) (uuids : List String) :
    ∀ (fuel : Nat) (st : St) (r : Res Snapshot) (st' : St) (evs : List Event),
      pollLoop env uuids fuel st = (r, st', evs) → ∀ ev ∈ evs, ev = Event.pollSleep := by
  intro fuel
  induction fuel with
  | zero =>
    intro st r st' evs h
    simp only [pollLoop] at h
    injection h with _ hb
    injection hb with _ hc
    rw [← hc]
    intro ev hev
    exact absurd hev (List.not_mem_nil ev)
  | succ fuel ih =>
    intro st r st' evs h
    simp only [pollLoop] at h
    split at h
    · injection h with _ hb
      injection hb with _ hc
      rw [← hc]
      intro ev hev
      rcases List.mem_singleton.mp hev with rfl
      rfl
    · injection h with _ hb
      injection hb with _ hc
      rw [← hc]
      intro ev hev
      rcases List.mem_singleton.mp hev with rfl
      rfl
    · rename_i st1 hstep
      injection h with _ hb
      injection hb with _ hc
      rw [← hc]
      intro ev hev
      rcases List.mem_cons.mp hev with rfl | hev
      · rfl
      · exact ih st1 (pollLoop env uuids fuel st1).1 (pollLoop env uuids fuel st1).2.1
          (pollLoop env uuids fuel st1).2.2 rfl ev hev

theorem startLoop_events (env : Env) (uuids : List String) :
    ∀ (tris : List (String × String × String)) (r : Option Err) (evs : List Event),
      startLoop env uuids tris = (r, evs) → ∀ ev ∈ evs, ∃ mp, ev = Event.startCmd mp := by
  intro tris
  induction tris with
  | nil =>
    intro r evs h
    injection h with _ hb
    rw [← hb]
    intro ev hev
    exact absurd hev (List.not_mem_nil ev)
  | cons t rest ih =>
    obtain ⟨u, p, mp⟩ := t
    intro r evs h
    simp only [startLoop] at h
    split at h
    · split at h
      · injection h with _ hb
        rw [← hb]
        intro ev hev
        rcases List.mem_cons.mp hev with rfl | hev
        · exact ⟨mp, rfl⟩
        · exact ih (startLoop env uuids rest).1 (startLoop env uuids rest).2 rfl ev hev
      · injection h with _ hb
        rw [← hb]
        intro ev hev
        rcases List.mem_singleton.mp hev with rfl
        exact ⟨mp, rfl⟩
    · exact ih r evs h

theorem startLoop_covers (env : Env) (uuids : List String) :
    ∀ (tris : List (String × String × String)) (evs : List Event),
      startLoop env uuids tris = (none, evs) →
      ∀ u p mp, (u, p, mp) ∈ tris → u ∈ uuids → Event.startCmd mp ∈ evs := by
  intro tris
  induction tris with
  | nil =>
    intro evs h u p mp hmem
    exact absurd hmem (List.not_mem_nil _)
  | cons t rest ih =>
    obtain ⟨u0, p0, mp0⟩ := t
    intro evs h u p mp hmem hu
    simp only [startLoop] at h
    split at h
    · split at h
      · injection h with ha hb
        rw [← hb]
        rcases List.mem_cons.mp hmem with heq | hmem
        · injection heq with h1 h2
          injection h2 with h2 h3
          subst h3
          exact List.mem_cons_self _ _
        · exact List.mem_cons_of_mem _
            (ih (startLoop env uuids rest).2 (by rw [← ha]) u p mp hmem hu)
      · exact absurd h (by simp)
    · rename_i hu0
      rcases List.mem_cons.mp hmem with heq | hmem
      · injection heq with h1 h2
        subst h1
        exact absurd hu hu0
      · exact ih evs h u p mp hmem hu

theorem startLoop_ok_of_startOk (env : Env) (uuids : List String)
    (hok : ∀ mp, env.startOk mp = true) :
    ∀ (tris : List (String × String × String)), ∃ evs, startLoop env uuids tris = (none, evs) := by
  intro tris
  induction tris with
  | nil => exact ⟨[], rfl⟩
  | cons t rest ih =>
    obtain ⟨u, p, mp⟩ := t
    obtain ⟨evs, hevs⟩ := ih
    by_cases hu : u ∈ uuids
    · refine ⟨Event.startCmd mp :: evs, ?_⟩
      simp only [startLoop, if_pos hu, hok mp, if_true, hevs]
    · refine ⟨evs, ?_⟩
      simp only [startLoop, if_neg hu, hevs]

/-- C1: whenever the try body of scrub — Starting or Polling — raises any
    exception e (ScrubCanceled included) and the unwinding cancel loop then
    runs to completion, the whole scrub call propagates exactly e, after the
    cancel loop has re-run over the same UUID set; and the cancel loop
    completes only with a final status snapshot in which no device of any
    targeted UUID present in the store remains uncanceled. -/
theorem c1_unwind_cancels_all (env : Env) (uuids : List String)
    (f1 f2 f3 : Nat) (st0 : St) (snap1 : Snapshot) (st1 : St) (evs1 : List Event)
    (e : Err) (st2 : St) (evs2 : List Event) (snap3 : Snapshot) (st3 : St) (evs3 : List Event)
    (h1 : cancel_scrubs env uuids f1 st0 = (.ok snap1, st1, evs1))
    (h2 : scrubTryBody env uuids f2 st1 = (.err e, st2, evs2))
    (h3 : cancel_scrubs env uuids f3 st2 = (.ok snap3, st3, evs3)) :
    scrub env uuids f1 f2 f3 st0 = (.err e, st3, evs1 ++ evs2 ++ evs3) ∧
    uncanceledScrubs uuids snap3 = .ok [] := by
  constructor
  · simp only [scrub, h1, h2, h3]
  · exact cancel_scrubs_ok_post env uuids f3 st2 snap3 st3 evs3 h3

/-- Witness for C1: with the cancel flag set, the poll raises ScrubCanceled,
    the unwind re-runs the cancel loop to completion, and the call propagates
    ScrubCanceled. -/
theorem c1_witness :
    scrub envA [uuidA] 1 1 1 ⟨true, none, 0⟩ =
      (.err .scrubCanceled, ⟨true, some false, 1⟩,
        [] ++ [Event.startCmd "/mnt", Event.pollSleep] ++ []) ∧
    uncanceledScrubs [uuidA] [] = .ok [] :=
  c1_unwind_cancels_all envA [uuidA] 1 1 1 ⟨true, none, 0⟩ [] ⟨true, none, 0⟩ []
    Err.scrubCanceled ⟨true, some false, 1⟩ [Event.startCmd "/mnt", Event.pollSleep]
    [] ⟨true, some false, 1⟩ [] rfl rfl rfl

/-- C10: a scrub call that returns successfully returns the entire status
    snapshot read at its final poll — the very value read_scrub_status
    produced from the store, not a restriction of it to the targeted UUIDs. -/
theorem c10_returns_full_snapshot (env : Env) (uuids : List String)
    (f1 f2 f3 : Nat) (st : St) (snap : Snapshot) (st' : St) (evs : List Event)
    (h : scrub env uuids f1 f2 f3 st = (.ok snap, st', evs)) :
    ∃ t, read_scrub_status (env.files t) = .ok snap := by
  unfold scrub at h
  split at h
  · exact absurd h (by simp)
  · exact absurd h (by simp)
  · rename_i snap1 st1 evs1 hc1
    split at h
    · rename_i snap2 st2 evs2 htry
      injection h with ha _
      injection ha with ha
      subst ha
      unfold scrubTryBody at htry
      split at htry
      · exact absurd htry (by simp)
      · rename_i tris htris
        split at htry
        · exact absurd htry (by simp)
        · rename_i evs0 hstart
          injection htry with hta _
          exact pollLoop_ok_snapshot env uuids f2 st1 snap2
            (pollLoop env uuids f2 st1).2.1 (pollLoop env uuids f2 st1).2.2 (by rw [← hta])
    · rename_i st2 evs2 htry
      exact absurd h (by simp)
    · rename_i e st2 evs2 htry
      split at h
      · exact absurd h (by simp)
      · exact absurd h (by simp)
      · exact absurd h (by simp)

/-- Witness for C10: a successful scrub over envB, whose store holds a record
    only for the untargeted uuidB, returns that record in its snapshot. -/
theorem c10_witness :
    scrub envB [uuidA] 1 1 1 ⟨false, none, 0⟩ =
      (.ok snapB, ⟨false, none, 1⟩, [Event.startCmd "/mnt", Event.pollSleep]) ∧
    ∃ t, read_scrub_status (envB.files t) = .ok snapB :=
  ⟨rfl, c10_returns_full_snapshot envB [uuidA] 1 1 1 ⟨false, none, 0⟩ snapB
    ⟨false, none, 1⟩ [Event.startCmd "/mnt", Event.pollSleep] rfl⟩

theorem cancel_scrubs_immediate (env : Env) (uuids : List String) (fuel : Nat) (st : St)
    (snap : Snapshot)
    (hr : read_scrub_status (env.files st.tick) = .ok snap)
    (hu : uncanceledScrubs uuids snap = .ok []) :
    cancel_scrubs env uuids (fuel + 1) st = (.ok snap, st, []) := by
  simp only [cancel_scrubs]
  rw [hr]
  simp [hu]

theorem scrub_cancel_core (env : Env) (uuids : List String) (f2 : Nat) (st : St)
    (hcancel : st.cancel = true)
    (hall : ∀ t, ∃ s, read_scrub_status (env.files t) = .ok s ∧
      uncanceledScrubs uuids s = .ok [])
    (hmfi : ∃ tris, mfi env = .ok tris)
    (hstart : ∀ mp, env.startOk mp = true) :
    ∃ evs, scrub env uuids 1 (f2 + 1) 1 st =
      (.err .scrubCanceled, ⟨true, some false, st.tick + 1⟩, evs) := by
  obtain ⟨s0, hr0, hu0⟩ := hall st.tick
  obtain ⟨tris, htris⟩ := hmfi
  obtain ⟨sevs, hsl⟩ := startLoop_ok_of_startOk env uuids hstart tris
  have hphase1 : cancel_scrubs env uuids 1 st = (.ok s0, st, []) :=
    cancel_scrubs_immediate env uuids 0 st s0 hr0 hu0
  have hstep : pollStep env uuids st =
      (.fail .scrubCanceled, ⟨true, some false, st.tick + 1⟩) := by
    simp [pollStep, hcancel]
  have hpoll : pollLoop env uuids (f2 + 1) st =
      (.err .scrubCanceled, ⟨true, some false, st.tick + 1⟩, [Event.pollSleep]) := by
    simp only [pollLoop, hstep]
  have htry : scrubTryBody env uuids (f2 + 1) st =
      (.err .scrubCanceled, ⟨true, some false, st.tick + 1⟩, sevs ++ [Event.pollSleep]) := by
    simp only [scrubTryBody, htris, hsl, hpoll]
  obtain ⟨s1, hr1, hu1⟩ := hall (st.tick + 1)
  have hunwind : cancel_scrubs env uuids 1 ⟨true, some false, st.tick + 1⟩ =
      (.ok s1, ⟨true, some false, st.tick + 1⟩, []) :=
    cancel_scrubs_immediate env uuids 0 ⟨true, some false, st.tick + 1⟩ s1 hr1 hu1
  refine ⟨[] ++ (sevs ++ [Event.pollSleep]) ++ [], ?_⟩
  simp only [scrub, hphase1, htry, hunwind]

/-- C9: if the process-wide scrub.cancel flag is set when scrub reaches a
    poll tick, the call raises ScrubCanceled (after unwinding) but the flag
    stays true — the reset on line 183 assigns the distinct attribute
    scrub.cancel_scrubs (recorded as some false) — so a subsequent scrub call
    again raises ScrubCanceled at its first poll tick. -/
theorem c9_cancel_flag_sticky (env : Env) (uuids : List String) (f2 f2' : Nat) (st : St)
    (hcancel : st.cancel = true)
    (hall : ∀ t, ∃ s, read_scrub_status (env.files t) = .ok s ∧
      uncanceledScrubs uuids s = .ok [])
    (hmfi : ∃ tris, mfi env = .ok tris)
    (hstart : ∀ mp, env.startOk mp = true) :
    (∃ evs, scrub env uuids 1 (f2 + 1) 1 st =
       (.err .scrubCanceled, ⟨true, some false, st.tick + 1⟩, evs)) ∧
    St.cancel ⟨true, some false, st.tick + 1⟩ = true ∧
    St.cancel_scrubs ⟨true, some false, st.tick + 1⟩ = some false ∧
    (∃ evs', scrub env uuids 1 (f2' + 1) 1 ⟨true, some false, st.tick + 1⟩ =
       (.err .scrubCanceled, ⟨true, some false, st.tick + 2⟩, evs')) :=
  ⟨scrub_cancel_core env uuids f2 st hcancel hall hmfi hstart, rfl, rfl,
   scrub_cancel_core env uuids f2' ⟨true, some false, st.tick + 1⟩ rfl hall hmfi hstart⟩

/-- Witness for C9 in the concrete world envA with the flag initially set. -/
theorem c9_witness :
    (∃ evs, scrub envA [uuidA] 1 1 1 ⟨true, none, 0⟩ =
       (.err .scrubCanceled, ⟨true, some false, 1⟩, evs)) ∧
    St.cancel ⟨true, some false, 1⟩ = true ∧
    St.cancel_scrubs ⟨true, some false, 1⟩ = some false ∧
    (∃ evs', scrub envA [uuidA] 1 1 1 ⟨true, some false, 1⟩ =
       (.err .scrubCanceled, ⟨true, some false, 2⟩, evs')) :=
  c9_cancel_flag_sticky envA [uuidA] 0 0 ⟨true, none, 0⟩ rfl
    (fun _ => ⟨[], rfl, rfl⟩) ⟨[(uuidA, "/dev/sda", "/mnt")], rfl⟩ (fun _ => rfl)

/-- C3: in one scrub call over mounted target UUIDs, the trace decomposes as
    the cancel-priors phase (cancel commands and waits only), whose returned
    snapshot has every targeted device canceled, followed by the start
    commands — covering every targeted UUID — followed by the rest, which
    contains no start command: cancellation of priors completes before any
    start, and polling begins only after every targeted UUID got its start
    command. -/
theorem c3_cancel_start_poll_order (env : Env) (uuids : List String)
    (f1 f2 f3 : Nat) (st0 : St) (snap1 : Snapshot) (st1 : St) (evs1 : List Event)
    (tris : List (String × String × String)) (sevs : List Event)
    (h1 : cancel_scrubs env uuids f1 st0 = (.ok snap1, st1, evs1))
    (hm : mfi env = .ok tris)
    (hs : startLoop env uuids tris = (none, sevs))
    (hcov : ∀ u ∈ uuids, ∃ p mp, (u, p, mp) ∈ tris) :
    ∃ r st' pevs, scrub env uuids f1 f2 f3 st0 = (r, st', evs1 ++ (sevs ++ pevs)) ∧
      (∀ ev ∈ evs1, (∃ mp, ev = Event.cancelCmd mp) ∨ ev = Event.cancelSleep) ∧
      uncanceledScrubs uuids snap1 = .ok [] ∧
      (∀ ev ∈ sevs, ∃ mp, ev = Event.startCmd mp) ∧
      (∀ u ∈ uuids, ∃ mp, Event.startCmd mp ∈ sevs) ∧
      (∀ ev ∈ pevs, ¬ ∃ mp, ev = Event.startCmd mp) := by
  have hev1 := cancel_scrubs_events env uuids f1 st0 _ _ _ h1
  have hpost := cancel_scrubs_ok_post env uuids f1 st0 snap1 st1 evs1 h1
  have hsev := startLoop_events env uuids tris none sevs hs
  have hcover : ∀ u ∈ uuids, ∃ mp, Event.startCmd mp ∈ sevs := by
    intro u hu
    obtain ⟨p, mp, hmem⟩ := hcov u hu
    exact ⟨mp, startLoop_covers env uuids tris sevs hs u p mp hmem hu⟩
  rcases hP : pollLoop env uuids f2 st1 with ⟨pr, pst, pevs0⟩
  have hpev : ∀ ev ∈ pevs0, ev = Event.pollSleep :=
    pollLoop_events env uuids f2 st1 pr pst pevs0 hP
  have htry : scrubTryBody env uuids f2 st1 = (pr, pst, sevs ++ pevs0) := by
    simp only [scrubTryBody, hm, hs, hP]
  have hpoll_nostart : ∀ ev ∈ pevs0, ¬ ∃ mp, ev = Event.startCmd mp := by
    intro ev hev
    rw [hpev ev hev]
    rintro ⟨mp, hmp⟩
    exact absurd hmp (by simp)
  cases pr with
  | ok snap2 =>
    refine ⟨.ok snap2, pst, pevs0, ?_, hev1, hpost, hsev, hcover, hpoll_nostart⟩
    simp only [scrub, h1, htry]
  | timeout =>
    refine ⟨.timeout, pst, pevs0, ?_, hev1, hpost, hsev, hcover, hpoll_nostart⟩
    simp only [scrub, h1, htry]
  | err e =>
    rcases hU : cancel_scrubs env uuids f3 pst with ⟨ur, ust, uevs⟩
    have huev := cancel_scrubs_events env uuids f3 pst ur ust uevs hU
    have hnostart : ∀ ev ∈ pevs0 ++ uevs, ¬ ∃ mp, ev = Event.startCmd mp := by
      intro ev hev
      rcases List.mem_append.mp hev with hev | hev
      · exact hpoll_nostart ev hev
      · rcases huev ev hev with ⟨mp0, rfl⟩ | rfl
        · rintro ⟨mp, hmp⟩
          exact absurd hmp (by simp)
        · rintro ⟨mp, hmp⟩
          exact absurd hmp (by simp)
    cases ur with
    | ok s3 =>
      refine ⟨.err e, ust, pevs0 ++ uevs, ?_, hev1, hpost, hsev, hcover, hnostart⟩
      simp only [scrub, h1, htry, hU]
      simp [List.append_assoc]
    | err e2 =>
      refine ⟨.err e2, ust, pevs0 ++ uevs, ?_, hev1, hpost, hsev, hcover, hnostart⟩
      simp only [scrub, h1, htry, hU]
      simp [List.append_assoc]
    | timeout =>
      refine ⟨.timeout, ust, pevs0 ++ uevs, ?_, hev1, hpost, hsev, hcover, hnostart⟩
      simp only [scrub, h1, htry, hU]
      simp [List.append_assoc]

/-- Witness for C3 in the concrete world envA with uuidA targeted. -/
theorem c3_witness :
    ∃ r st' pevs, scrub envA [uuidA] 1 1 1 ⟨false, none, 0⟩ =
        (r, st', [] ++ ([Event.startCmd "/mnt"] ++ pevs)) ∧
      (∀ ev ∈ ([] : List Event), (∃ mp, ev = Event.cancelCmd mp) ∨ ev = Event.cancelSleep) ∧
      uncanceledScrubs [uuidA] [] = .ok [] ∧
      (∀ ev ∈ [Event.startCmd "/mnt"], ∃ mp, ev = Event.startCmd mp) ∧
      (∀ u ∈ [uuidA], ∃ mp, Event.startCmd mp ∈ [Event.startCmd "/mnt"]) ∧
      (∀ ev ∈ pevs, ¬ ∃ mp, ev = Event.startCmd mp) :=
  c3_cancel_start_poll_order envA [uuidA] 1 1 1 ⟨false, none, 0⟩ [] ⟨false, none, 0⟩ []
    [(uuidA, "/dev/sda", "/mnt")] [Event.startCmd "/mnt"] rfl rfl rfl
    (by
      intro u hu
      rcases List.mem_singleton.mp hu with rfl
      exact ⟨"/dev/sda", "/mnt", List.mem_singleton.mpr rfl⟩)

theorem parseDeviceLines_terminated :
    ∀ (devLines : List String) (acc : Dict String DeviceInfo) (rest : List String),
      (∀ l ∈ devLines, l ≠ "" ∧ (parseDevidLine l).isSome = true) →
      parseDeviceLines (devLines ++ "" :: rest) acc =
        .ok (some (devLines.foldl devStep acc, rest)) := by
  intro devLines
  induction devLines with
  | nil =>
    intro acc rest _
    simp [parseDeviceLines]
  | cons l ls ih =>
    intro acc rest hwf
    obtain ⟨hne, hsome⟩ := hwf l (List.mem_cons_self _ _)
    obtain ⟨r, hr⟩ := Option.isSome_iff_exists.mp hsome
    obtain ⟨devid, size, used, path⟩ := r
    simp only [List.cons_append, parseDeviceLines, if_neg hne, hr, List.foldl_cons]
    have hstep : devStep acc l = dictInsert devid ⟨size, used, path⟩ acc := by
      simp [devStep, hr]
    rw [← hstep]
    exact ih (devStep acc l) rest (fun l' hl' => hwf l' (List.mem_cons_of_mem _ hl'))

theorem parseDeviceLines_eoi :
    ∀ (devLines : List String) (acc : Dict String DeviceInfo),
      (∀ l ∈ devLines, l ≠ "" ∧ (parseDevidLine l).isSome = true) →
      parseDeviceLines devLines acc = .ok none := by
  intro devLines
  induction devLines with
  | nil => intro acc _; rfl
  | cons l ls ih =>
    intro acc hwf
    obtain ⟨hne, hsome⟩ := hwf l (List.mem_cons_self _ _)
    obtain ⟨r, hr⟩ := Option.isSome_iff_exists.mp hsome
    obtain ⟨devid, size, used, path⟩ := r
    simp only [parseDeviceLines, if_neg hne, hr]
    exact ih _ (fun l' hl' => hwf l' (List.mem_cons_of_mem _ hl'))

theorem parseFilesystemBlock_terminated (b : RawBlock) (rest : List String) (hwf : b.wf) :
    parseFilesystemBlock (b.lines ++ "" :: rest) = .ok (some (b.entry, rest)) := by
  obtain ⟨hl, ht, hd⟩ := hwf
  obtain ⟨lu, hlu⟩ := Option.isSome_iff_exists.mp hl
  obtain ⟨tt, htt⟩ := Option.isSome_iff_exists.mp ht
  obtain ⟨label, uuid⟩ := lu
  obtain ⟨nd, bu⟩ := tt
  simp only [RawBlock.lines, List.cons_append, parseFilesystemBlock, hlu, htt,
    parseDeviceLines_terminated b.devidLines [] rest hd]
  simp [RawBlock.entry, hlu, htt]

theorem parseFilesystemBlock_eoi (b : RawBlock) (hwf : b.wf) :
    parseFilesystemBlock b.lines = .ok none := by
  obtain ⟨hl, ht, hd⟩ := hwf
  obtain ⟨⟨label, uuid⟩, hlu⟩ := Option.isSome_iff_exists.mp hl
  obtain ⟨⟨nd, bu⟩, htt⟩ := Option.isSome_iff_exists.mp ht
  simp only [RawBlock.lines, parseFilesystemBlock, hlu, htt,
    parseDeviceLines_eoi b.devidLines [] hd]

theorem getFilesystemsAux_blocks (blocks : List RawBlock) :
    ∀ (fuel : Nat) (acc : Dict String FsData) (tail : List String),
      (∀ b ∈ blocks, b.wf) →
      parseFilesystemBlock tail = .ok none →
      ((blocks.map (fun b => b.lines ++ [""])).flatten ++ tail).length < fuel →
      getFilesystemsAux fuel ((blocks.map (fun b => b.lines ++ [""])).flatten ++ tail) acc =
        .ok (blocks.foldl (fun a b => dictInsert b.entry.1 b.entry.2 a) acc) := by
  induction blocks with
  | nil =>
    intro fuel acc tail _ htail hfuel
    cases fuel with
    | zero => simp at hfuel
    | succ fuel =>
      simp only [List.map_nil, List.flatten_nil, List.nil_append] at hfuel ⊢
      simp [getFilesystemsAux, htail]
  | cons b rest ih =>
    intro fuel acc tail hwf htail hfuel
    have hsplit : ((b :: rest).map (fun b => b.lines ++ [""])).flatten ++ tail =
        b.lines ++ ("" :: ((rest.map (fun b => b.lines ++ [""])).flatten ++ tail)) := by
      simp [List.flatten_cons, List.append_assoc]
    rw [hsplit] at hfuel ⊢
    cases fuel with
    | zero => simp at hfuel
    | succ fuel =>
      simp only [getFilesystemsAux,
        parseFilesystemBlock_terminated b _ (hwf b (List.mem_cons_self _ _))]
      have hlen : ((rest.map (fun b => b.lines ++ [""])).flatten ++ tail).length < fuel := by
        simp only [List.length_append, List.length_cons, RawBlock.lines] at hfuel ⊢
        omega
      have := ih fuel (dictInsert b.entry.1 b.entry.2 acc) tail
        (fun b' hb' => hwf b' (List.mem_cons_of_mem _ hb')) htail hlen
      rw [this]
      simp

theorem dictInsert_append_of_not_mem {β : Type} (k : String) (v : β) (acc : Dict String β)
    (h : k ∉ acc.map Prod.fst) : dictInsert k v acc = acc ++ [(k, v)] := by
  induction acc with
  | nil => rfl
  | cons p rest ih =>
    obtain ⟨k', v'⟩ := p
    simp only [List.map_cons, List.mem_cons] at h
    push_neg at h
    obtain ⟨h1, h2⟩ := h
    simp only [dictInsert, List.cons_append]
    rw [if_neg (Ne.symm h1), ih h2]

theorem foldl_dictInsert_append {β : Type} :
    ∀ (l : List (String × β)) (acc : Dict String β),
      (l.map Prod.fst).Nodup →
      (∀ k ∈ l.map Prod.fst, k ∉ acc.map Prod.fst) →
      l.foldl (fun a p => dictInsert p.1 p.2 a) acc = acc ++ l := by
  intro l
  induction l with
  | nil => intro acc _ _; simp
  | cons p rest ih =>
    intro acc hnd hdisj
    obtain ⟨k, v⟩ := p
    simp only [List.map_cons, List.nodup_cons] at hnd
    obtain ⟨hk, hnd⟩ := hnd
    simp only [List.foldl_cons]
    have hins : dictInsert k v acc = acc ++ [(k, v)] :=
      dictInsert_append_of_not_mem k v acc (hdisj k (by simp))
    rw [hins, ih (acc ++ [(k, v)]) hnd ?_]
    · simp
    · intro k' hk'
      simp only [List.map_append, List.mem_append, List.map_cons]
      push_neg
      constructor
      · exact hdisj k' (by simp [hk'])
      · simp only [List.map_nil, List.mem_singleton]
        intro he
        rw [he] at hk'
        exact hk hk'

/-- C5 (amended): for a well-formed volume listing given as blank-line-
    terminated blocks with distinct UUIDs, get_filesystems returns exactly
    one Volume entry per block, keyed by the block's UUID with devices keyed
    by devid in line order; but a final block that ends at end of input
    without a trailing blank line is silently dropped and yields no Volume. -/
theorem c5_one_volume_per_terminated_block (blocks : List RawBlock) (lastb : RawBlock)
    (hwf : ∀ b ∈ blocks, b.wf) (hwl : lastb.wf)
    (hnd : (blocks.map RawBlock.uuid).Nodup) :
    get_filesystems ((blocks.map (fun b => b.lines ++ [""])).flatten) =
      .ok (blocks.map RawBlock.entry) ∧
    get_filesystems ((blocks.map (fun b => b.lines ++ [""])).flatten ++ lastb.lines) =
      .ok (blocks.map RawBlock.entry) := by
  have hmapfst : (blocks.map RawBlock.entry).map Prod.fst = blocks.map RawBlock.uuid := by
    rw [List.map_map]
    exact List.map_congr_left (fun b _ => rfl)
  have hfold : blocks.foldl (fun a b => dictInsert b.entry.1 b.entry.2 a) [] =
      blocks.map RawBlock.entry := by
    have h1 : blocks.foldl (fun a b => dictInsert b.entry.1 b.entry.2 a) [] =
        (blocks.map RawBlock.entry).foldl (fun a p => dictInsert p.1 p.2 a) [] := by
      rw [List.foldl_map]
    rw [h1, foldl_dictInsert_append (blocks.map RawBlock.entry) []
      (by rw [hmapfst]; exact hnd) (by simp)]
    simp
  constructor
  · unfold get_filesystems
    have := getFilesystemsAux_blocks blocks
      (((blocks.map (fun b => b.lines ++ [""])).flatten).length + 1) [] [] hwf rfl (by simp)
    simp only [List.append_nil] at this
    rw [this, hfold]
  · unfold get_filesystems
    rw [getFilesystemsAux_blocks blocks _ [] lastb.lines hwf
      (parseFilesystemBlock_eoi lastb hwl) (by omega), hfold]

/-- C5 as stated is false on the code: a well-formed single-block listing
    that ends at end of input without a trailing blank line yields no Volume
    at all — get_filesystems silently drops the final block instead of
    treating end of input as a terminator. -/
theorem c5_counterexample :
    get_filesystems
      ["Label: data  uuid: 01234567-89ab-cdef-0123-456789abcdef",
       "\tTotal devices 1 FS bytes used 1.23GiB",
       "\tdevid 1 size 10.00GiB used 1.00GiB path /dev/sda"] = .ok [] := rfl

/-- Witness for the amended C5: two concrete blank-terminated blocks parse to
    their two Volumes; appending blockW2's lines again without the trailing
    blank leaves the result unchanged. -/
theorem c5_witness :
    get_filesystems (([blockW, blockW2].map (fun b => b.lines ++ [""])).flatten) =
      .ok ([blockW, blockW2].map RawBlock.entry) ∧
    get_filesystems ((([blockW, blockW2].map (fun b => b.lines ++ [""])).flatten) ++ blockW.lines) =
      .ok ([blockW, blockW2].map RawBlock.entry) :=
  c5_one_volume_per_terminated_block [blockW, blockW2] blockW
    (by
      intro b hb
      rcases List.mem_cons.mp hb with rfl | hb
      · exact ⟨by decide, by decide, by decide⟩
      · rcases List.mem_singleton.mp hb with rfl
        exact ⟨by decide, by decide, by decide⟩)
    ⟨by decide, by decide, by decide⟩
    (by decide)
